import Mathlib

/-!
Verification of the NPC engagement engine of the secondlife-ai-bot server.

The TypeScript sources are shallowly embedded: each service method becomes a
pure Lean function, `Date.now()` becomes an explicit `now : Nat` argument,
`Math.random()` draws become explicit rational arguments, and a JS `Map`
becomes an insertion-ordered association list with unique keys.
-/

namespace SLBot

/-- Lookup in a JS `Map` modelled as an insertion-ordered association list. -/
def mapGet {α : Type} (m : List (String × α)) (k : String) : Option α :=
  (m.find? (fun p => p.1 == k)).map (fun p => p.2)

/-- `Map.set`: overwrite in place when the key exists (keys are unique, so the
first match is the only one), else append at the end. -/
def mapSet {α : Type} (m : List (String × α)) (k : String) (v : α) : List (String × α) :=
  match m with
  | [] => [(k, v)]
  | p :: t => if p.1 == k then (k, v) :: t else p :: mapSet t k v

/-- `Map.delete`. -/
def mapDelete {α : Type} (m : List (String × α)) (k : String) : List (String × α) :=
  m.filter (fun p => !(p.1 == k))

/-- Update the value stored under `k` (the first match; keys are unique in a
JS `Map`), leaving the map unchanged when the key is absent. -/
def mapModify {α : Type} (m : List (String × α)) (k : String) (f : α → α) : List (String × α) :=
  match m with
  | [] => []
  | p :: t => if p.1 == k then (p.1, f p.2) :: t else p :: mapModify t k f

/-- JS `String.prototype.includes`: substring containment. -/
def strIncludes (s pat : String) : Bool :=
  decide (pat.toList <:+: s.toList)

/- ### Message buffer (server/src/services/message-buffer.ts) -/

/-- `BufferedMessage` from `types/npc`.  The `randomUUID` id is modelled as an
opaque natural number supplied by the caller. -/
structure BufferedMessage where
  id : Nat
  avatarId : String
  avatarName : String
  content : String
  receivedAt : Nat
  isDirectMention : Bool
deriving Repr, DecidableEq

/-- `AvatarBuffer` from `types/npc`. -/
structure AvatarBuffer where
  avatarId : String
  avatarName : String
  messages : List BufferedMessage
  firstMessageAt : Nat
  lastMessageAt : Nat
  totalMessages : Nat
  lastRespondedAt : Option Nat
deriving Repr, DecidableEq

/-- `BufferConfig` from `types/npc`. -/
structure BufferConfig where
  maxMessagesPerAvatar : Nat
  maxTotalBufferSize : Nat
  aggregationWindowMs : Nat
  expiryMs : Nat
deriving Repr, DecidableEq

/-- The `buffers` field of `MessageBufferService`: a JS `Map` from avatar id to
`AvatarBuffer`, in insertion order. -/
abbrev Buffers := List (String × AvatarBuffer)

/-- `MessageBufferService.getTotalBufferSize`. -/
def getTotalBufferSize (bufs : Buffers) : Nat :=
  bufs.foldl (fun total p => total + p.2.messages.length) 0

/-- `MessageBufferService.cleanExpiredMessages` at time `now`: every buffer
keeps only its non-expired messages (`now - receivedAt <= expiryMs`), has its
`totalMessages` counter reset to the surviving count, and is deleted from the
map when no message survives. -/
def cleanExpiredMessages (cfg : BufferConfig) (bufs : Buffers) (now : Nat) : Buffers :=
  match bufs with
  | [] => []
  | p :: t =>
    let msgs := p.2.messages.filter (fun msg => now - msg.receivedAt ≤ cfg.expiryMs)
    if msgs.isEmpty then cleanExpiredMessages cfg t now
    else (p.1, { p.2 with messages := msgs, totalMessages := msgs.length })
      :: cleanExpiredMessages cfg t now

/-- One step of `evictOldestMessage`'s search loop: keep the candidate with
the strictly smallest head-message timestamp (the earliest buffer wins ties). -/
def oldestCandidate (acc : Option (String × Nat)) (p : String × AvatarBuffer) :
    Option (String × Nat) :=
  match p.2.messages with
  | [] => acc
  | first :: _ =>
    match acc with
    | none => some (p.1, first.receivedAt)
    | some q => if first.receivedAt < q.2 then some (p.1, first.receivedAt) else acc

/-- The avatar id holding the globally oldest head message, scanned in map
order as in `evictOldestMessage`'s search loop. -/
def findOldestBufferId (bufs : Buffers) : Option String :=
  (bufs.foldl oldestCandidate none).map (fun q => q.1)

/-- Drop the head message of the entry stored under `bid` (the first entry
with that key; keys are unique in a JS `Map`), deleting the entry when it
becomes empty. -/
def evictFrom (bid : String) (bufs : Buffers) : Buffers :=
  match bufs with
  | [] => []
  | p :: t =>
    if p.1 == bid then
      (let msgs := p.2.messages.tail
       if msgs.isEmpty then t
       else (p.1, { p.2 with messages := msgs, totalMessages := p.2.totalMessages - 1 }) :: t)
    else p :: evictFrom bid t

/-- `MessageBufferService.evictOldestMessage`: drop the head of the buffer
holding the globally oldest message, decrement its counter, and delete the
buffer when it becomes empty. -/
def evictOldestMessage (bufs : Buffers) : Buffers :=
  match findOldestBufferId bufs with
  | none => bufs
  | some bid => evictFrom bid bufs

/-- The per-buffer step of `addMessage`: push the new message, bump the
bookkeeping, and drop the oldest message when the per-avatar cap is
exceeded. -/
def pushMessage (cfg : BufferConfig) (message : BufferedMessage) (now : Nat)
    (b : AvatarBuffer) : AvatarBuffer :=
  let b1 := { b with messages := b.messages ++ [message], lastMessageAt := now,
                     totalMessages := b.totalMessages + 1 }
  if b1.messages.length > cfg.maxMessagesPerAvatar then
    { b1 with messages := b1.messages.tail }
  else b1

/-- `MessageBufferService.addMessage`: create the buffer on first contact,
push the new message, drop the per-avatar oldest when over
`maxMessagesPerAvatar`, sweep expired messages, and evict the globally oldest
message once when the global cap is exceeded. -/
def addMessage (cfg : BufferConfig) (bufs : Buffers) (avatarId avatarName content : String)
    (isDirectMention : Bool) (now : Nat) (msgId : Nat) : Buffers :=
  let message : BufferedMessage :=
    { id := msgId, avatarId := avatarId, avatarName := avatarName, content := content,
      receivedAt := now, isDirectMention := isDirectMention }
  let bufs1 :=
    if (mapGet bufs avatarId).isSome then bufs
    else bufs ++ [(avatarId,
      { avatarId := avatarId, avatarName := avatarName, messages := [],
        firstMessageAt := now, lastMessageAt := now, totalMessages := 0,
        lastRespondedAt := none })]
  let bufs2 := mapModify bufs1 avatarId (pushMessage cfg message now)
  let bufs3 := cleanExpiredMessages cfg bufs2 now
  if getTotalBufferSize bufs3 > cfg.maxTotalBufferSize then evictOldestMessage bufs3
  else bufs3

/-- `MessageBufferService.getAggregatedContent`: join the avatar's messages
that lie within the aggregation window with single spaces; a message also
passes the filter when the buffer holds exactly one message. -/
def getAggregatedContent (cfg : BufferConfig) (bufs : Buffers) (avatarId : String)
    (now : Nat) : String :=
  match mapGet bufs avatarId with
  | none => ""
  | some buffer =>
    if buffer.messages.isEmpty then ""
    else
      String.intercalate " "
        ((buffer.messages.filter (fun msg =>
          (now - msg.receivedAt ≤ cfg.aggregationWindowMs) || buffer.messages.length == 1)).map
          (fun msg => msg.content))

/-- `MessageBufferService.clearBuffer`: drop the avatar's messages and reset
its counter but keep the buffer entry (preserving `lastRespondedAt`). -/
def clearBuffer (bufs : Buffers) (avatarId : String) : Buffers :=
  mapModify bufs avatarId (fun b => { b with messages := [], totalMessages := 0 })

/-- `MessageBufferService.clearAll`. -/
def clearAll (_bufs : Buffers) : Buffers := []

/-- `MessageBufferService.updateLastResponded` at time `now`. -/
def updateLastResponded (bufs : Buffers) (avatarId : String) (now : Nat) : Buffers :=
  mapModify bufs avatarId (fun b => { b with lastRespondedAt := some now })

/- ### Helper lemmas about the buffer map -/

theorem mapGet_nil {α : Type} (k : String) : mapGet ([] : List (String × α)) k = none := rfl

theorem mapGet_cons {α : Type} (p : String × α) (m : List (String × α)) (k : String) :
    mapGet (p :: m) k = if p.1 == k then some p.2 else mapGet m k := by
  simp only [mapGet, List.find?]
  rcases h : (p.1 == k) with _ | _ <;> simp [h]

theorem getTotalBufferSize_eq_sum (bufs : Buffers) :
    getTotalBufferSize bufs = (bufs.map (fun p => p.2.messages.length)).sum := by
  have h : ∀ (l : Buffers) (n : Nat),
      l.foldl (fun total p => total + p.2.messages.length) n
        = n + (l.map (fun p => p.2.messages.length)).sum := by
    intro l
    induction l with
    | nil => intro n; simp
    | cons p t ih =>
      intro n
      simp only [List.foldl, List.map, List.sum_cons]
      rw [ih]
      omega
  simpa [getTotalBufferSize] using h bufs 0

theorem mapGet_eq_none_of_not_mem {α : Type} (m : List (String × α)) (k : String)
    (h : k ∉ m.map Prod.fst) : mapGet m k = none := by
  induction m with
  | nil => rfl
  | cons p t ih =>
    simp only [List.map_cons, List.mem_cons, not_or] at h
    rw [mapGet_cons]
    have hpk : (p.1 == k) = false := by
      simp only [beq_eq_false_iff_ne, ne_eq]
      exact fun hk => h.1 hk.symm
    simp only [hpk, Bool.false_eq_true, if_false]
    exact ih h.2

/-- One unfolding step of the sweep, with the `let` expanded. -/
theorem cleanExpiredMessages_cons (cfg : BufferConfig) (p : String × AvatarBuffer)
    (t : Buffers) (now : Nat) :
    cleanExpiredMessages cfg (p :: t) now =
      if (p.2.messages.filter (fun msg => now - msg.receivedAt ≤ cfg.expiryMs)).isEmpty then
        cleanExpiredMessages cfg t now
      else
        (p.1, { p.2 with
                  messages := p.2.messages.filter (fun msg => now - msg.receivedAt ≤ cfg.expiryMs),
                  totalMessages :=
                    (p.2.messages.filter (fun msg => now - msg.receivedAt ≤ cfg.expiryMs)).length })
          :: cleanExpiredMessages cfg t now := rfl

theorem keys_cleanExpiredMessages_subset (cfg : BufferConfig) (bufs : Buffers) (now : Nat)
    (k : String) (h : k ∈ (cleanExpiredMessages cfg bufs now).map Prod.fst) :
    k ∈ bufs.map Prod.fst := by
  induction bufs with
  | nil => simp [cleanExpiredMessages] at h
  | cons p t ih =>
    rw [cleanExpiredMessages_cons] at h
    rcases hemp : (p.2.messages.filter (fun msg => now - msg.receivedAt ≤ cfg.expiryMs)).isEmpty
      with _ | _
    · simp only [hemp, Bool.false_eq_true, if_false, List.map_cons, List.mem_cons] at h
      rcases h with h | h
      · exact List.mem_cons.2 (Or.inl h)
      · exact List.mem_cons.2 (Or.inr (ih h))
    · simp only [hemp, if_true] at h
      exact List.mem_cons.2 (Or.inr (ih h))

/- ### C4: expiry sweep -/

/-- Pointwise description of the sweep: what `cleanExpiredMessages` stores for
one avatar id, assuming keys are unique as in a JS `Map`. -/
theorem cleanExpiredMessages_mapGet (cfg : BufferConfig) (bufs : Buffers) (now : Nat)
    (hnd : (bufs.map Prod.fst).Nodup) (id : String) :
    mapGet (cleanExpiredMessages cfg bufs now) id =
      (mapGet bufs id).bind (fun b =>
        if (b.messages.filter (fun msg => now - msg.receivedAt ≤ cfg.expiryMs)).isEmpty then none
        else some { b with
                      messages := b.messages.filter (fun msg => now - msg.receivedAt ≤ cfg.expiryMs),
                      totalMessages :=
                        (b.messages.filter (fun msg => now - msg.receivedAt ≤ cfg.expiryMs)).length }) := by
  induction bufs with
  | nil => rfl
  | cons p t ih =>
    simp only [List.map_cons, List.nodup_cons] at hnd
    obtain ⟨hp, ht⟩ := hnd
    rw [cleanExpiredMessages_cons, mapGet_cons]
    by_cases hpk : (p.1 == id) = true
    · -- head key is the queried id; later entries cannot hold this key
      have hid : p.1 = id := by simpa using hpk
      rw [if_pos hpk, Option.some_bind]
      by_cases hemp :
          ((p.2.messages.filter (fun msg => now - msg.receivedAt ≤ cfg.expiryMs)).isEmpty) = true
      · rw [if_pos hemp, if_pos hemp]
        apply mapGet_eq_none_of_not_mem
        intro hmem
        exact hp (hid ▸ keys_cleanExpiredMessages_subset cfg t now id hmem)
      · rw [if_neg hemp, if_neg hemp, mapGet_cons, if_pos hpk]
    · -- head key differs from the queried id
      rw [if_neg hpk]
      by_cases hemp :
          ((p.2.messages.filter (fun msg => now - msg.receivedAt ≤ cfg.expiryMs)).isEmpty) = true
      · rw [if_pos hemp]
        exact ih ht
      · rw [if_neg hemp, mapGet_cons, if_neg hpk]
        exact ih ht

/-- C4 (amended): for any buffer set with unique keys, the sweep at time `now`
removes exactly the utterances older than `expiryMs`, resets the surviving
count, and deletes a speaker's entry iff its message sequence is empty after
the sweep — regardless of whether last-responded-at is set. -/
theorem C4_sweep_removes_expired_deletes_iff_empty (cfg : BufferConfig) (bufs : Buffers)
    (now : Nat) (hnd : (bufs.map Prod.fst).Nodup) (id : String) :
    mapGet (cleanExpiredMessages cfg bufs now) id =
      (mapGet bufs id).bind (fun b =>
        if (b.messages.filter (fun msg => now - msg.receivedAt ≤ cfg.expiryMs)).isEmpty then none
        else some { b with
                      messages := b.messages.filter (fun msg => now - msg.receivedAt ≤ cfg.expiryMs),
                      totalMessages :=
                        (b.messages.filter (fun msg => now - msg.receivedAt ≤ cfg.expiryMs)).length }) :=
  cleanExpiredMessages_mapGet cfg bufs now hnd id

/-- Concrete two-speaker buffer set used by the C4 witness: speaker `a` keeps
one fresh message, speaker `b` only holds an expired one. -/
def c4WitnessBufs : Buffers :=
  [("a", { avatarId := "a", avatarName := "A",
           messages := [{ id := 1, avatarId := "a", avatarName := "A", content := "hi",
                          receivedAt := 90000, isDirectMention := false },
                        { id := 2, avatarId := "a", avatarName := "A", content := "old",
                          receivedAt := 0, isDirectMention := false }],
           firstMessageAt := 0, lastMessageAt := 90000, totalMessages := 2,
           lastRespondedAt := none }),
   ("b", { avatarId := "b", avatarName := "B",
           messages := [{ id := 3, avatarId := "b", avatarName := "B", content := "gone",
                          receivedAt := 1, isDirectMention := false }],
           firstMessageAt := 1, lastMessageAt := 1, totalMessages := 1,
           lastRespondedAt := some 2 })]

/-- Witness for C4: the characterization evaluated on a two-speaker buffer set
in which one speaker keeps a fresh message and the other is fully swept. -/
theorem C4_sweep_removes_expired_deletes_iff_empty_witness :
    ((c4WitnessBufs.map Prod.fst).Nodup) ∧
    mapGet (cleanExpiredMessages ⟨10, 50, 5000, 60000⟩ c4WitnessBufs 100000) "b" =
      (mapGet c4WitnessBufs "b").bind (fun b =>
        if (b.messages.filter (fun msg => 100000 - msg.receivedAt ≤ (60000 : Nat))).isEmpty then none
        else some { b with
                      messages := b.messages.filter (fun msg => 100000 - msg.receivedAt ≤ (60000 : Nat)),
                      totalMessages :=
                        (b.messages.filter (fun msg => 100000 - msg.receivedAt ≤ (60000 : Nat))).length }) := by
  constructor
  · decide
  · exact C4_sweep_removes_expired_deletes_iff_empty ⟨10, 50, 5000, 60000⟩ c4WitnessBufs 100000
      (by decide) "b"

/-- Single-speaker buffer set for the C4 counterexample: the sole message has
expired at time 100000 while last-responded-at is set. -/
def c4CexBufs : Buffers :=
  [("s", { avatarId := "s", avatarName := "S",
           messages := [{ id := 1, avatarId := "s", avatarName := "S", content := "hi",
                          receivedAt := 0, isDirectMention := false }],
           firstMessageAt := 0, lastMessageAt := 0, totalMessages := 1,
           lastRespondedAt := some 500 })]

/-- Counterexample to C4 as stated: a speaker whose sole message has expired
but whose last-responded-at is set is deleted by the sweep, not retained. -/
theorem C4_counterexample :
    ((mapGet c4CexBufs "s").map (fun b => b.lastRespondedAt) = some (some 500)) ∧
    mapGet (cleanExpiredMessages ⟨10, 50, 5000, 60000⟩ c4CexBufs 100000) "s" = none := by
  constructor <;> decide

/- ### C5: per-speaker aggregation -/

/-- C5 (amended): for a speaker with a non-empty buffer, `getAggregatedContent`
returns the single-space, insertion-ordered concatenation of the messages whose
age is within the aggregation window; a buffer holding exactly one message
returns that message's content regardless of age, but a buffer holding two or
more messages that all lie outside the window yields the empty string (the
length-one rescue in the filter never fires then). -/
theorem C5_aggregation (cfg : BufferConfig) (bufs : Buffers) (id : String) (now : Nat)
    (b : AvatarBuffer) (hb : mapGet bufs id = some b) :
    (∀ msg, b.messages = [msg] → getAggregatedContent cfg bufs id now = msg.content) ∧
    (2 ≤ b.messages.length →
      getAggregatedContent cfg bufs id now =
        String.intercalate " "
          ((b.messages.filter (fun m => now - m.receivedAt ≤ cfg.aggregationWindowMs)).map
            (fun m => m.content))) := by
  constructor
  · intro msg hmsg
    simp only [getAggregatedContent, hb, hmsg]
    simp [List.filter]
    rfl
  · intro hlen
    simp only [getAggregatedContent, hb]
    have hne : b.messages.isEmpty = false := by
      cases h : b.messages with
      | nil => rw [h] at hlen; simp at hlen
      | cons x xs => rfl
    rw [if_neg (by rw [hne]; exact Bool.false_ne_true)]
    have hone : (b.messages.length == 1) = false := by
      have : b.messages.length ≠ 1 := by omega
      simpa using this
    have hfe : b.messages.filter
        (fun m => (decide (now - m.receivedAt ≤ cfg.aggregationWindowMs)) || b.messages.length == 1)
        = b.messages.filter (fun m => now - m.receivedAt ≤ cfg.aggregationWindowMs) := by
      apply List.filter_congr
      intro a _
      rw [hone, Bool.or_false]
    rw [hfe]

/-- Buffer set for the C5 witness: speaker `s` has one in-window and one
out-of-window message at time 10000. -/
def c5WitnessBufs : Buffers :=
  [("s", { avatarId := "s", avatarName := "S",
           messages := [{ id := 1, avatarId := "s", avatarName := "S", content := "early",
                          receivedAt := 0, isDirectMention := false },
                        { id := 2, avatarId := "s", avatarName := "S", content := "late",
                          receivedAt := 9000, isDirectMention := false }],
           firstMessageAt := 0, lastMessageAt := 9000, totalMessages := 2,
           lastRespondedAt := none })]

/-- Witness for C5: only the in-window message survives aggregation. -/
theorem C5_aggregation_witness :
    (mapGet c5WitnessBufs "s").isSome ∧
    getAggregatedContent ⟨10, 50, 5000, 60000⟩ c5WitnessBufs "s" 10000 = "late" := by
  refine ⟨by decide, ?_⟩
  have h := (C5_aggregation ⟨10, 50, 5000, 60000⟩ c5WitnessBufs "s" 10000
    { avatarId := "s", avatarName := "S",
      messages := [{ id := 1, avatarId := "s", avatarName := "S", content := "early",
                     receivedAt := 0, isDirectMention := false },
                   { id := 2, avatarId := "s", avatarName := "S", content := "late",
                     receivedAt := 9000, isDirectMention := false }],
      firstMessageAt := 0, lastMessageAt := 9000, totalMessages := 2,
      lastRespondedAt := none } (by decide)).2 (by decide)
  rw [h]
  decide

/-- Buffer set for the C5 counterexample: two messages, both older than the
aggregation window at time 10000. -/
def c5CexBufs : Buffers :=
  [("s", { avatarId := "s", avatarName := "S",
           messages := [{ id := 1, avatarId := "s", avatarName := "S", content := "a",
                          receivedAt := 0, isDirectMention := false },
                        { id := 2, avatarId := "s", avatarName := "S", content := "b",
                          receivedAt := 100, isDirectMention := false }],
           firstMessageAt := 0, lastMessageAt := 100, totalMessages := 2,
           lastRespondedAt := none })]

/-- Counterexample to C5 as stated: a non-empty buffer whose two messages both
fall outside the window aggregates to the empty string — the remaining
utterances are dropped, contrary to the claim. -/
theorem C5_counterexample :
    ((mapGet c5CexBufs "s").map (fun b => b.messages.length) = some 2) ∧
    getAggregatedContent ⟨10, 50, 5000, 60000⟩ c5CexBufs "s" 10000 = "" := by
  constructor <;> decide

/- ### C6: buffer cap invariants -/

theorem total_nil : getTotalBufferSize [] = 0 := rfl

theorem total_cons (p : String × AvatarBuffer) (t : Buffers) :
    getTotalBufferSize (p :: t) = p.2.messages.length + getTotalBufferSize t := by
  rw [getTotalBufferSize_eq_sum, getTotalBufferSize_eq_sum, List.map_cons, List.sum_cons]

theorem length_le_total (bufs : Buffers) (p : String × AvatarBuffer) (hp : p ∈ bufs) :
    p.2.messages.length ≤ getTotalBufferSize bufs := by
  induction bufs with
  | nil => cases hp
  | cons q t ih =>
    rw [total_cons]
    rcases List.mem_cons.1 hp with h | h
    · rw [h]; omega
    · have := ih h; omega

theorem total_pos_exists (bufs : Buffers) (h : 0 < getTotalBufferSize bufs) :
    ∃ p ∈ bufs, p.2.messages ≠ [] := by
  induction bufs with
  | nil => simp [total_nil] at h
  | cons p t ih =>
    rw [total_cons] at h
    by_cases hp : p.2.messages = []
    · have hpos : 0 < getTotalBufferSize t := by
        rw [hp] at h; simpa using h
      obtain ⟨q, hq, hqne⟩ := ih hpos
      exact ⟨q, List.mem_cons_of_mem _ hq, hqne⟩
    · exact ⟨p, List.mem_cons_self _ _, hp⟩

theorem mapModify_cons {α : Type} (p : String × α) (t : List (String × α)) (k : String)
    (f : α → α) :
    mapModify (p :: t) k f = if p.1 == k then (p.1, f p.2) :: t else p :: mapModify t k f := rfl

theorem keys_mapModify {α : Type} (m : List (String × α)) (k : String) (f : α → α) :
    (mapModify m k f).map Prod.fst = m.map Prod.fst := by
  induction m with
  | nil => rfl
  | cons p t ih =>
    rw [mapModify_cons]
    by_cases hpk : (p.1 == k) = true
    · rw [if_pos hpk]; rfl
    · rw [if_neg hpk, List.map_cons, List.map_cons, ih]

theorem mapModify_total_le (m : Buffers) (k : String) (g : AvatarBuffer → AvatarBuffer)
    (incr : Nat) (hg : ∀ b : AvatarBuffer, (g b).messages.length ≤ b.messages.length + incr) :
    getTotalBufferSize (mapModify m k g) ≤ getTotalBufferSize m + incr := by
  induction m with
  | nil => simp [mapModify, total_nil]
  | cons p t ih =>
    rw [mapModify_cons]
    by_cases hpk : (p.1 == k) = true
    · rw [if_pos hpk, total_cons, total_cons]
      have := hg p.2
      dsimp only at *
      omega
    · rw [if_neg hpk, total_cons, total_cons]
      omega

theorem mapModify_cap (C : Nat) (m : Buffers) (k : String) (g : AvatarBuffer → AvatarBuffer)
    (hg : ∀ b : AvatarBuffer, b.messages.length ≤ C → (g b).messages.length ≤ C)
    (hm : ∀ p ∈ m, p.2.messages.length ≤ C) :
    ∀ p ∈ mapModify m k g, p.2.messages.length ≤ C := by
  induction m with
  | nil => intro p hp; cases hp
  | cons q t ih =>
    intro p hp
    rw [mapModify_cons] at hp
    by_cases hqk : (q.1 == k) = true
    · rw [if_pos hqk] at hp
      rcases List.mem_cons.1 hp with h | h
      · rw [h]
        exact hg q.2 (hm q (List.mem_cons_self _ _))
      · exact hm p (List.mem_cons_of_mem _ h)
    · rw [if_neg hqk] at hp
      rcases List.mem_cons.1 hp with h | h
      · rw [h]
        exact hm q (List.mem_cons_self _ _)
      · exact ih (fun r hr => hm r (List.mem_cons_of_mem _ hr)) p h

theorem mapGet_isSome_iff_mem {α : Type} (m : List (String × α)) (k : String) :
    (mapGet m k).isSome = true ↔ k ∈ m.map Prod.fst := by
  induction m with
  | nil => simp [mapGet]
  | cons p t ih =>
    rw [mapGet_cons]
    by_cases hpk : (p.1 == k) = true
    · have : p.1 = k := by simpa using hpk
      simp [hpk, this]
    · have : ¬ p.1 = k := by simpa using hpk
      simp only [if_neg hpk, List.map_cons, List.mem_cons]
      rw [ih]
      constructor
      · exact fun h => Or.inr h
      · rintro (h | h)
        · exact absurd h.symm this
        · exact h

theorem cleanExpired_total_le (cfg : BufferConfig) (bufs : Buffers) (now : Nat) :
    getTotalBufferSize (cleanExpiredMessages cfg bufs now) ≤ getTotalBufferSize bufs := by
  induction bufs with
  | nil => simp [cleanExpiredMessages]
  | cons p t ih =>
    rw [cleanExpiredMessages_cons, total_cons]
    by_cases hemp :
        ((p.2.messages.filter (fun msg => now - msg.receivedAt ≤ cfg.expiryMs)).isEmpty) = true
    · rw [if_pos hemp]
      omega
    · rw [if_neg hemp, total_cons]
      have hfilter := List.length_filter_le
        (fun msg => now - msg.receivedAt ≤ cfg.expiryMs) p.2.messages
      simp only at hfilter ⊢
      omega

theorem cleanExpired_cap (C : Nat) (cfg : BufferConfig) (bufs : Buffers) (now : Nat)
    (hm : ∀ p ∈ bufs, p.2.messages.length ≤ C) :
    ∀ p ∈ cleanExpiredMessages cfg bufs now, p.2.messages.length ≤ C := by
  induction bufs with
  | nil => intro p hp; simp [cleanExpiredMessages] at hp
  | cons q t ih =>
    intro p hp
    rw [cleanExpiredMessages_cons] at hp
    by_cases hemp :
        ((q.2.messages.filter (fun msg => now - msg.receivedAt ≤ cfg.expiryMs)).isEmpty) = true
    · rw [if_pos hemp] at hp
      exact ih (fun r hr => hm r (List.mem_cons_of_mem _ hr)) p hp
    · rw [if_neg hemp] at hp
      rcases List.mem_cons.1 hp with h | h
      · rw [h]
        have hfilter := List.length_filter_le
          (fun msg => now - msg.receivedAt ≤ cfg.expiryMs) q.2.messages
        have := hm q (List.mem_cons_self _ _)
        simp only at hfilter ⊢
        omega
      · exact ih (fun r hr => hm r (List.mem_cons_of_mem _ hr)) p h

theorem cleanExpired_keys_sublist (cfg : BufferConfig) (bufs : Buffers) (now : Nat) :
    ((cleanExpiredMessages cfg bufs now).map Prod.fst).Sublist (bufs.map Prod.fst) := by
  induction bufs with
  | nil => simp [cleanExpiredMessages]
  | cons p t ih =>
    rw [cleanExpiredMessages_cons]
    by_cases hemp :
        ((p.2.messages.filter (fun msg => now - msg.receivedAt ≤ cfg.expiryMs)).isEmpty) = true
    · rw [if_pos hemp]
      exact ih.cons p.1
    · rw [if_neg hemp]
      exact ih.cons₂ p.1

/-- After the sweep every surviving buffer's `totalMessages` counter equals
its message count (the sweep resets the counter unconditionally). -/
theorem cleanExpired_counter_eq (cfg : BufferConfig) (bufs : Buffers) (now : Nat) :
    ∀ p ∈ cleanExpiredMessages cfg bufs now, p.2.totalMessages = p.2.messages.length := by
  induction bufs with
  | nil => intro p hp; simp [cleanExpiredMessages] at hp
  | cons q t ih =>
    intro p hp
    rw [cleanExpiredMessages_cons] at hp
    by_cases hemp :
        ((q.2.messages.filter (fun msg => now - msg.receivedAt ≤ cfg.expiryMs)).isEmpty) = true
    · rw [if_pos hemp] at hp
      exact ih p hp
    · rw [if_neg hemp] at hp
      rcases List.mem_cons.1 hp with h | h
      · rw [h]
      · exact ih p h

theorem evictFrom_cons (p : String × AvatarBuffer) (t : Buffers) (bid : String) :
    evictFrom bid (p :: t) =
      if p.1 == bid then
        (if p.2.messages.tail.isEmpty then t
         else (p.1, { p.2 with messages := p.2.messages.tail,
                               totalMessages := p.2.totalMessages - 1 }) :: t)
      else p :: evictFrom bid t := rfl

theorem evictFrom_keys_sublist (bid : String) (bufs : Buffers) :
    ((evictFrom bid bufs).map Prod.fst).Sublist (bufs.map Prod.fst) := by
  induction bufs with
  | nil => simp [evictFrom]
  | cons p t ih =>
    rw [evictFrom_cons]
    by_cases hpk : (p.1 == bid) = true
    · rw [if_pos hpk]
      by_cases hemp : (p.2.messages.tail.isEmpty) = true
      · rw [if_pos hemp]
        exact (List.Sublist.refl _).cons p.1
      · rw [if_neg hemp]
        exact (List.Sublist.refl _).cons₂ p.1
    · rw [if_neg hpk]
      exact ih.cons₂ p.1

theorem evictFrom_cap (C : Nat) (bid : String) (bufs : Buffers)
    (hm : ∀ p ∈ bufs, p.2.messages.length ≤ C) :
    ∀ p ∈ evictFrom bid bufs, p.2.messages.length ≤ C := by
  induction bufs with
  | nil => intro p hp; simp [evictFrom] at hp
  | cons q t ih =>
    intro p hp
    rw [evictFrom_cons] at hp
    by_cases hqk : (q.1 == bid) = true
    · rw [if_pos hqk] at hp
      by_cases hemp : (q.2.messages.tail.isEmpty) = true
      · rw [if_pos hemp] at hp
        exact hm p (List.mem_cons_of_mem _ hp)
      · rw [if_neg hemp] at hp
        rcases List.mem_cons.1 hp with h | h
        · rw [h]
          have := hm q (List.mem_cons_self _ _)
          have htail := List.length_tail q.2.messages
          simp only at htail ⊢
          omega
        · exact hm p (List.mem_cons_of_mem _ h)
    · rw [if_neg hqk] at hp
      rcases List.mem_cons.1 hp with h | h
      · rw [h]
        exact hm q (List.mem_cons_self _ _)
      · exact ih (fun r hr => hm r (List.mem_cons_of_mem _ hr)) p h

theorem evictFrom_counter_eq (bid : String) (bufs : Buffers)
    (hm : ∀ p ∈ bufs, p.2.totalMessages = p.2.messages.length) :
    ∀ p ∈ evictFrom bid bufs, p.2.totalMessages = p.2.messages.length := by
  induction bufs with
  | nil => intro p hp; simp [evictFrom] at hp
  | cons q t ih =>
    intro p hp
    rw [evictFrom_cons] at hp
    by_cases hqk : (q.1 == bid) = true
    · rw [if_pos hqk] at hp
      by_cases hemp : (q.2.messages.tail.isEmpty) = true
      · rw [if_pos hemp] at hp
        exact hm p (List.mem_cons_of_mem _ hp)
      · rw [if_neg hemp] at hp
        rcases List.mem_cons.1 hp with h | h
        · rw [h]
          have := hm q (List.mem_cons_self _ _)
          have htail := List.length_tail q.2.messages
          simp only at this htail ⊢
          omega
        · exact hm p (List.mem_cons_of_mem _ h)
    · rw [if_neg hqk] at hp
      rcases List.mem_cons.1 hp with h | h
      · rw [h]
        exact hm q (List.mem_cons_self _ _)
      · exact ih (fun r hr => hm r (List.mem_cons_of_mem _ hr)) p h

theorem evictFrom_total (bid : String) (bufs : Buffers)
    (hnd : (bufs.map Prod.fst).Nodup)
    (hex : ∃ p ∈ bufs, p.1 = bid ∧ p.2.messages ≠ []) :
    getTotalBufferSize (evictFrom bid bufs) = getTotalBufferSize bufs - 1 := by
  induction bufs with
  | nil => obtain ⟨p, hp, _⟩ := hex; cases hp
  | cons q t ih =>
    simp only [List.map_cons, List.nodup_cons] at hnd
    obtain ⟨hq, ht⟩ := hnd
    rw [evictFrom_cons]
    by_cases hqk : (q.1 == bid) = true
    · have hqid : q.1 = bid := by simpa using hqk
      -- by key uniqueness, the nonempty entry with key bid is the head
      have hqne : q.2.messages ≠ [] := by
        obtain ⟨p, hp, hpk, hpne⟩ := hex
        rcases List.mem_cons.1 hp with h | h
        · rw [h] at hpne; exact hpne
        · exfalso
          have hmem : p.1 ∈ t.map Prod.fst := List.mem_map_of_mem Prod.fst h
          rw [hpk, ← hqid] at hmem
          exact hq hmem
      rw [if_pos hqk]
      by_cases hemp : (q.2.messages.tail.isEmpty) = true
      · rw [if_pos hemp, total_cons]
        have hlen : q.2.messages.length = 1 := by
          cases hmsg : q.2.messages with
          | nil => exact absurd hmsg hqne
          | cons x xs =>
            rw [hmsg] at hemp
            simp only [List.tail_cons, List.isEmpty_iff] at hemp
            simp [hmsg, hemp]
        omega
      · rw [if_neg hemp, total_cons, total_cons]
        have hlen : 1 ≤ q.2.messages.length := by
          cases hmsg : q.2.messages with
          | nil => exact absurd hmsg hqne
          | cons x xs => simp [hmsg]
        have htail := List.length_tail q.2.messages
        simp only at htail ⊢
        omega
    · have hqid : ¬ q.1 = bid := by simpa using hqk
      rw [if_neg hqk, total_cons, total_cons]
      have hex' : ∃ p ∈ t, p.1 = bid ∧ p.2.messages ≠ [] := by
        obtain ⟨p, hp, hpk, hpne⟩ := hex
        rcases List.mem_cons.1 hp with h | h
        · exact absurd (h ▸ hpk) hqid
        · exact ⟨p, h, hpk, hpne⟩
      have hpos : 1 ≤ getTotalBufferSize t := by
        obtain ⟨p, hp, _, hpne⟩ := hex'
        have := length_le_total t p hp
        have hlen : 1 ≤ p.2.messages.length := by
          cases hmsg : p.2.messages with
          | nil => exact absurd hmsg hpne
          | cons x xs => simp [hmsg]
        omega
      have := ih ht hex'
      omega

theorem foldl_oldestCandidate_mem (l : Buffers) :
    ∀ (acc : Option (String × Nat)) (q : String × Nat),
      l.foldl oldestCandidate acc = some q →
      acc = some q ∨ ∃ p ∈ l, p.1 = q.1 ∧ p.2.messages ≠ [] := by
  induction l with
  | nil => intro acc q h; exact Or.inl h
  | cons p t ih =>
    intro acc q h
    rw [List.foldl_cons] at h
    rcases ih (oldestCandidate acc p) q h with hstep | ⟨r, hr, hrk, hrne⟩
    · -- the candidate after the head step already is q
      unfold oldestCandidate at hstep
      cases hmsg : p.2.messages with
      | nil =>
        rw [hmsg] at hstep
        exact Or.inl hstep
      | cons x xs =>
        rw [hmsg] at hstep
        cases hacc : acc with
        | none =>
          rw [hacc] at hstep
          simp only at hstep
          refine Or.inr ⟨p, List.mem_cons_self _ _, ?_, by simp [hmsg]⟩
          have := Option.some.inj hstep
          rw [← this]
        | some r =>
          rw [hacc] at hstep
          simp only at hstep
          by_cases hlt : x.receivedAt < r.2
          · rw [if_pos hlt] at hstep
            refine Or.inr ⟨p, List.mem_cons_self _ _, ?_, by simp [hmsg]⟩
            have := Option.some.inj hstep
            rw [← this]
          · rw [if_neg hlt] at hstep
            exact Or.inl (hacc ▸ hstep)
    · exact Or.inr ⟨r, List.mem_cons_of_mem _ hr, hrk, hrne⟩

theorem foldl_oldestCandidate_isSome (l : Buffers) :
    ∀ (acc : Option (String × Nat)),
      (acc.isSome = true ∨ ∃ p ∈ l, p.2.messages ≠ []) →
      (l.foldl oldestCandidate acc).isSome = true := by
  induction l with
  | nil =>
    intro acc h
    rcases h with h | ⟨p, hp, _⟩
    · exact h
    · cases hp
  | cons p t ih =>
    intro acc h
    rw [List.foldl_cons]
    apply ih
    rcases h with h | ⟨q, hq, hqne⟩
    · left
      unfold oldestCandidate
      cases hmsg : p.2.messages with
      | nil => exact h
      | cons x xs =>
        cases hacc : acc with
        | none => simp [hacc] at h
        | some r =>
          by_cases hlt : x.receivedAt < r.2 <;> simp [hlt]
    · rcases List.mem_cons.1 hq with hhead | htail
      · left
        unfold oldestCandidate
        rw [hhead] at hqne
        cases hmsg : p.2.messages with
        | nil => exact absurd hmsg hqne
        | cons x xs =>
          cases hacc : acc with
          | none => rfl
          | some r =>
            by_cases hlt : x.receivedAt < r.2 <;> simp [hlt]
      · exact Or.inr ⟨q, htail, hqne⟩

theorem findOldest_spec (bufs : Buffers) (h : 0 < getTotalBufferSize bufs) :
    ∃ bid, findOldestBufferId bufs = some bid ∧
      ∃ p ∈ bufs, p.1 = bid ∧ p.2.messages ≠ [] := by
  obtain ⟨p, hp, hpne⟩ := total_pos_exists bufs h
  have hsome := foldl_oldestCandidate_isSome bufs none (Or.inr ⟨p, hp, hpne⟩)
  obtain ⟨q, hq⟩ := Option.isSome_iff_exists.1 hsome
  refine ⟨q.1, ?_, ?_⟩
  · simp [findOldestBufferId, hq]
  · rcases foldl_oldestCandidate_mem bufs none q hq with hnone | hex
    · cases hnone
    · exact hex

theorem evictOldest_total (bufs : Buffers) (hnd : (bufs.map Prod.fst).Nodup)
    (h : 0 < getTotalBufferSize bufs) :
    getTotalBufferSize (evictOldestMessage bufs) = getTotalBufferSize bufs - 1 := by
  obtain ⟨bid, hfind, hex⟩ := findOldest_spec bufs h
  rw [evictOldestMessage, hfind]
  exact evictFrom_total bid bufs hnd hex

theorem pushMessage_length_le (cfg : BufferConfig) (message : BufferedMessage) (now : Nat)
    (b : AvatarBuffer) :
    (pushMessage cfg message now b).messages.length ≤ b.messages.length + 1 := by
  unfold pushMessage
  by_cases hover : b.messages.length + 1 > cfg.maxMessagesPerAvatar
  · simp only [List.length_append, List.length_cons, List.length_nil]
    rw [if_pos (by simpa using hover)]
    simp only [List.length_tail, List.length_append]
    simp
  · simp only [List.length_append, List.length_cons, List.length_nil]
    rw [if_neg (by simpa using hover)]
    simp

theorem pushMessage_cap (cfg : BufferConfig) (message : BufferedMessage) (now : Nat)
    (b : AvatarBuffer) (hb : b.messages.length ≤ cfg.maxMessagesPerAvatar) :
    (pushMessage cfg message now b).messages.length ≤ cfg.maxMessagesPerAvatar := by
  unfold pushMessage
  by_cases hover : b.messages.length + 1 > cfg.maxMessagesPerAvatar
  · simp only [List.length_append, List.length_cons, List.length_nil]
    rw [if_pos (by simpa using hover)]
    simp only [List.length_tail, List.length_append, List.length_cons, List.length_nil]
    omega
  · simp only [List.length_append, List.length_cons, List.length_nil]
    rw [if_neg (by simpa using hover)]
    simp only [List.length_append, List.length_cons, List.length_nil]
    omega

/-- The JS-map representation invariant plus both cap invariants from the
spec: unique keys, per-speaker cap, and the global soft cap. -/
def BufferInv (cfg : BufferConfig) (bufs : Buffers) : Prop :=
  (bufs.map Prod.fst).Nodup ∧
  (∀ p ∈ bufs, p.2.messages.length ≤ cfg.maxMessagesPerAvatar) ∧
  getTotalBufferSize bufs ≤ cfg.maxTotalBufferSize

theorem total_append (l₁ l₂ : Buffers) :
    getTotalBufferSize (l₁ ++ l₂) = getTotalBufferSize l₁ + getTotalBufferSize l₂ := by
  rw [getTotalBufferSize_eq_sum, getTotalBufferSize_eq_sum, getTotalBufferSize_eq_sum,
    List.map_append, List.sum_append]

theorem evictOldest_keys_sublist (bufs : Buffers) :
    ((evictOldestMessage bufs).map Prod.fst).Sublist (bufs.map Prod.fst) := by
  unfold evictOldestMessage
  cases findOldestBufferId bufs with
  | none => exact List.Sublist.refl _
  | some bid => exact evictFrom_keys_sublist bid bufs

theorem evictOldest_cap (C : Nat) (bufs : Buffers)
    (hm : ∀ p ∈ bufs, p.2.messages.length ≤ C) :
    ∀ p ∈ evictOldestMessage bufs, p.2.messages.length ≤ C := by
  unfold evictOldestMessage
  cases findOldestBufferId bufs with
  | none => exact hm
  | some bid => exact evictFrom_cap C bid bufs hm

theorem evictOldest_counter_eq (bufs : Buffers)
    (hm : ∀ p ∈ bufs, p.2.totalMessages = p.2.messages.length) :
    ∀ p ∈ evictOldestMessage bufs, p.2.totalMessages = p.2.messages.length := by
  unfold evictOldestMessage
  cases findOldestBufferId bufs with
  | none => exact hm
  | some bid => exact evictFrom_counter_eq bid bufs hm

theorem BufferInv_cleanExpired (cfg : BufferConfig) (bufs : Buffers) (now : Nat)
    (h : BufferInv cfg bufs) : BufferInv cfg (cleanExpiredMessages cfg bufs now) := by
  obtain ⟨hnd, hcap, htot⟩ := h
  exact ⟨(cleanExpired_keys_sublist cfg bufs now).nodup hnd,
    cleanExpired_cap _ cfg bufs now hcap,
    le_trans (cleanExpired_total_le cfg bufs now) htot⟩

theorem BufferInv_mapModify_shrink (cfg : BufferConfig) (bufs : Buffers) (k : String)
    (g : AvatarBuffer → AvatarBuffer)
    (hg : ∀ b : AvatarBuffer, (g b).messages.length ≤ b.messages.length)
    (h : BufferInv cfg bufs) : BufferInv cfg (mapModify bufs k g) := by
  obtain ⟨hnd, hcap, htot⟩ := h
  refine ⟨?_, ?_, ?_⟩
  · rw [keys_mapModify]; exact hnd
  · exact mapModify_cap _ bufs k g (fun b hb => le_trans (hg b) hb) hcap
  · have := mapModify_total_le bufs k g 0 (fun b => by have := hg b; omega)
    omega

/-- `addMessage` keeps every buffer's `totalMessages` counter equal to its
message count: the trailing sweep resets all counters and the optional
eviction decrements counter and count together. -/
theorem addMessage_counter_eq (cfg : BufferConfig) (bufs : Buffers)
    (avatarId avatarName content : String) (isDirectMention : Bool) (now msgId : Nat) :
    ∀ p ∈ addMessage cfg bufs avatarId avatarName content isDirectMention now msgId,
      p.2.totalMessages = p.2.messages.length := by
  unfold addMessage
  set bufs1 :=
    (if (mapGet bufs avatarId).isSome then bufs
     else bufs ++ [(avatarId,
       { avatarId := avatarId, avatarName := avatarName, messages := [],
         firstMessageAt := now, lastMessageAt := now, totalMessages := 0,
         lastRespondedAt := none })]) with hbufs1
  set bufs2 := mapModify bufs1 avatarId
    (pushMessage cfg
      { id := msgId, avatarId := avatarId, avatarName := avatarName, content := content,
        receivedAt := now, isDirectMention := isDirectMention } now) with hbufs2
  set bufs3 := cleanExpiredMessages cfg bufs2 now with hbufs3
  have h3 := cleanExpired_counter_eq cfg bufs2 now
  by_cases hov : getTotalBufferSize bufs3 > cfg.maxTotalBufferSize
  · rw [if_pos hov]
    exact evictOldest_counter_eq bufs3 h3
  · rw [if_neg hov]
    exact h3

/-- The push + sweep + conditional-evict tail of `addMessage` re-establishes
the cap invariants from any buffer set that satisfied them. -/
theorem BufferInv_push_clean_evict (cfg : BufferConfig) (bufs1 : Buffers) (avatarId : String)
    (message : BufferedMessage) (now : Nat)
    (h1nd : (bufs1.map Prod.fst).Nodup)
    (h1cap : ∀ p ∈ bufs1, p.2.messages.length ≤ cfg.maxMessagesPerAvatar)
    (h1tot : getTotalBufferSize bufs1 ≤ cfg.maxTotalBufferSize) :
    BufferInv cfg
      (if getTotalBufferSize
            (cleanExpiredMessages cfg (mapModify bufs1 avatarId (pushMessage cfg message now)) now)
          > cfg.maxTotalBufferSize then
        evictOldestMessage
          (cleanExpiredMessages cfg (mapModify bufs1 avatarId (pushMessage cfg message now)) now)
      else
        cleanExpiredMessages cfg (mapModify bufs1 avatarId (pushMessage cfg message now)) now) := by
  set bufs2 := mapModify bufs1 avatarId (pushMessage cfg message now) with hbufs2
  set bufs3 := cleanExpiredMessages cfg bufs2 now with hbufs3
  have h2nd : (bufs2.map Prod.fst).Nodup := by
    rw [hbufs2, keys_mapModify]; exact h1nd
  have h2cap : ∀ p ∈ bufs2, p.2.messages.length ≤ cfg.maxMessagesPerAvatar := by
    rw [hbufs2]
    exact mapModify_cap _ bufs1 avatarId _ (fun b hb => pushMessage_cap cfg message now b hb) h1cap
  have h2tot : getTotalBufferSize bufs2 ≤ getTotalBufferSize bufs1 + 1 := by
    rw [hbufs2]
    exact mapModify_total_le bufs1 avatarId (pushMessage cfg message now) 1
      (fun b => pushMessage_length_le cfg message now b)
  have h3nd : (bufs3.map Prod.fst).Nodup :=
    (cleanExpired_keys_sublist cfg bufs2 now).nodup h2nd
  have h3cap : ∀ p ∈ bufs3, p.2.messages.length ≤ cfg.maxMessagesPerAvatar :=
    cleanExpired_cap _ cfg bufs2 now h2cap
  have h3tot : getTotalBufferSize bufs3 ≤ cfg.maxTotalBufferSize + 1 := by
    have := cleanExpired_total_le cfg bufs2 now
    rw [← hbufs3] at this
    omega
  by_cases hov : getTotalBufferSize bufs3 > cfg.maxTotalBufferSize
  · rw [if_pos hov]
    refine ⟨(evictOldest_keys_sublist bufs3).nodup h3nd, evictOldest_cap _ bufs3 h3cap, ?_⟩
    have hev := evictOldest_total bufs3 h3nd (by omega)
    omega
  · rw [if_neg hov]
    exact ⟨h3nd, h3cap, by omega⟩

/-- C6: every buffer operation preserves the cap invariants — in particular
`addMessage` re-establishes both the per-speaker cap and the global cap, the
empty initial buffer set satisfies them, and the sweep, clear and
mark-responded operations only shrink or keep sizes. -/
theorem C6_buffer_caps (cfg : BufferConfig) (bufs : Buffers)
    (avatarId avatarName content : String) (isDirectMention : Bool) (now msgId : Nat)
    (h : BufferInv cfg bufs) :
    BufferInv cfg [] ∧
    BufferInv cfg (addMessage cfg bufs avatarId avatarName content isDirectMention now msgId) ∧
    BufferInv cfg (cleanExpiredMessages cfg bufs now) ∧
    BufferInv cfg (clearBuffer bufs avatarId) ∧
    BufferInv cfg (clearAll bufs) ∧
    BufferInv cfg (updateLastResponded bufs avatarId now) := by
  obtain ⟨hnd, hcap, htot⟩ := h
  refine ⟨⟨by simp, by simp, by simp [total_nil]⟩, ?_, ?_, ?_, ?_, ?_⟩
  · -- addMessage: dispatch to the staged lemma, discharging the stage-1 facts
    apply BufferInv_push_clean_evict
    · by_cases hpresent : (mapGet bufs avatarId).isSome = true
      · rw [if_pos hpresent]; exact hnd
      · rw [if_neg hpresent]
        have hnot : avatarId ∉ bufs.map Prod.fst := by
          intro hmem
          exact hpresent ((mapGet_isSome_iff_mem bufs avatarId).2 hmem)
        simp [List.nodup_append, hnd, hnot]
    · by_cases hpresent : (mapGet bufs avatarId).isSome = true
      · rw [if_pos hpresent]; exact hcap
      · rw [if_neg hpresent]
        intro p hp
        rcases List.mem_append.1 hp with hmem | hmem
        · exact hcap p hmem
        · simp only [List.mem_singleton] at hmem
          rw [hmem]
          simp
    · by_cases hpresent : (mapGet bufs avatarId).isSome = true
      · rw [if_pos hpresent]; exact htot
      · rw [if_neg hpresent, total_append]
        rw [total_cons, total_nil]
        simpa using htot
  · exact BufferInv_cleanExpired cfg bufs now ⟨hnd, hcap, htot⟩
  · exact BufferInv_mapModify_shrink cfg bufs avatarId _ (fun b => by simp) ⟨hnd, hcap, htot⟩
  · exact ⟨by simp [clearAll], by intro p hp; simp [clearAll] at hp, by simp [clearAll, total_nil]⟩
  · exact BufferInv_mapModify_shrink cfg bufs avatarId _ (fun b => by simp) ⟨hnd, hcap, htot⟩

/-- Buffer set for the C6 witness: two speakers already at the configured
caps (2 per avatar, 3 total). -/
def c6WitnessBufs : Buffers :=
  [("a", { avatarId := "a", avatarName := "A",
           messages := [{ id := 1, avatarId := "a", avatarName := "A", content := "x",
                          receivedAt := 1000, isDirectMention := false },
                        { id := 2, avatarId := "a", avatarName := "A", content := "y",
                          receivedAt := 1500, isDirectMention := false }],
           firstMessageAt := 1000, lastMessageAt := 1500, totalMessages := 2,
           lastRespondedAt := none }),
   ("b", { avatarId := "b", avatarName := "B",
           messages := [{ id := 3, avatarId := "b", avatarName := "B", content := "z",
                          receivedAt := 1200, isDirectMention := false }],
           firstMessageAt := 1200, lastMessageAt := 1200, totalMessages := 1,
           lastRespondedAt := none })]

/-- Witness for C6: the caps survive an ingest into an already-full buffer
set. -/
theorem C6_buffer_caps_witness :
    BufferInv ⟨2, 3, 5000, 60000⟩ c6WitnessBufs ∧
    BufferInv ⟨2, 3, 5000, 60000⟩
      (addMessage ⟨2, 3, 5000, 60000⟩ c6WitnessBufs "a" "A" "w" false 2000 4) := by
  have hinv : BufferInv ⟨2, 3, 5000, 60000⟩ c6WitnessBufs := by
    refine ⟨by decide, by decide, by decide⟩
  exact ⟨hinv,
    (C6_buffer_caps ⟨2, 3, 5000, 60000⟩ c6WitnessBufs "a" "A" "w" false 2000 4 hinv).2.1⟩

/- ### Memory service (server/src/services/memory.ts) -/

/-- `estimateTokens` from `utils/token-estimator.ts`: 0 for a falsy (empty)
string, else `Math.ceil(length / 4)`. -/
def estimateTokens (text : String) : Nat :=
  if text = "" then 0 else (text.length + 3) / 4

/-- `MemoryEntry` from the memory type definitions.  Timestamps are naturals
and the generated UUID is an opaque string. -/
structure MemoryEntry where
  id : String
  keywords : List String
  content : String
  priority : Nat
  createdAt : Nat
  lastAccessed : Option Nat
  accessCount : Nat
deriving Repr, DecidableEq

/-- `MemoryMatchResult` from the memory type definitions. -/
structure MemoryMatchResult where
  entry : MemoryEntry
  matchedKeywords : List String
  score : Nat
deriving Repr, DecidableEq

/-- `MemoryService.calculateScore`. -/
def calculateScore (memory : MemoryEntry) (matchedKeywords : List String) : Nat :=
  memory.priority * 10 + matchedKeywords.length * 5 + (if memory.accessCount > 0 then 2 else 0)

/-- The match-collection loop of `getRelevantMemories`. -/
def memoryMatches (memories : List MemoryEntry) (messageLower : String) :
    List MemoryMatchResult :=
  memories.filterMap (fun memory =>
    let matchedKeywords := memory.keywords.filter (fun keyword => strIncludes messageLower keyword)
    if matchedKeywords.isEmpty then none
    else some ⟨memory, matchedKeywords, calculateScore memory matchedKeywords⟩)

/-- Insertion step of a stable descending sort by score: the inserted element
(the earlier one in the original order) passes a later element only when its
score is strictly larger, which matches the JS stable
`sort((a, b) => b.score - a.score)`. -/
def insertDesc (x : MemoryMatchResult) : List MemoryMatchResult → List MemoryMatchResult
  | [] => [x]
  | y :: t => if x.score ≥ y.score then x :: y :: t else y :: insertDesc x t

/-- Stable descending sort by score. -/
def sortDesc : List MemoryMatchResult → List MemoryMatchResult
  | [] => []
  | x :: t => insertDesc x (sortDesc t)

/-- The selection loop of `MemoryService.selectByTokenBudget`, carrying the
running `currentTokens` accumulator; the loop breaks at the first entry that
does not fit. -/
def selectGo (maxTokens : Nat) : List MemoryEntry → Nat → List MemoryEntry
  | [], _ => []
  | memory :: rest, currentTokens =>
    if currentTokens + estimateTokens memory.content ≤ maxTokens then
      memory :: selectGo maxTokens rest (currentTokens + estimateTokens memory.content)
    else []

/-- `MemoryService.selectByTokenBudget`. -/
def selectByTokenBudget (memories : List MemoryEntry) (maxTokens : Nat) : List MemoryEntry :=
  selectGo maxTokens memories 0

/-- `MemoryService.getRelevantMemories` at time `now`: returns the selected
entries together with the updated store (the selected entries' access
statistics are bumped in place). -/
def getRelevantMemories (memories : List MemoryEntry) (recentMessages : List String)
    (maxTokens : Nat) (now : Nat) : List MemoryEntry × List MemoryEntry :=
  let messageLower := (String.intercalate " " recentMessages).toLower
  let sorted := sortDesc (memoryMatches memories messageLower)
  let selected := selectByTokenBudget (sorted.map (fun m => m.entry)) maxTokens
  (selected, memories.map (fun m =>
    if selected.any (fun s => s.id == m.id) then
      { m with lastAccessed := some now, accessCount := m.accessCount + 1 }
    else m))

/- ### C8: memory budget bound and monotonicity -/

/-- Estimated token cost of a list of memory entries. -/
def sumTokens (l : List MemoryEntry) : Nat :=
  (l.map (fun m => estimateTokens m.content)).sum

theorem selectGo_budget (maxTokens : Nat) (l : List MemoryEntry) :
    ∀ cur : Nat, cur ≤ maxTokens → cur + sumTokens (selectGo maxTokens l cur) ≤ maxTokens := by
  induction l with
  | nil => intro cur hcur; simpa [selectGo, sumTokens] using hcur
  | cons memory rest ih =>
    intro cur hcur
    rw [selectGo]
    by_cases hfit : cur + estimateTokens memory.content ≤ maxTokens
    · rw [if_pos hfit]
      have := ih (cur + estimateTokens memory.content) hfit
      simp only [sumTokens, List.map_cons, List.sum_cons] at this ⊢
      omega
    · rw [if_neg hfit]
      simpa [sumTokens] using hcur

theorem selectGo_mono (l : List MemoryEntry) (b b' : Nat) (hb : b ≤ b') :
    ∀ cur : Nat, ∃ t, selectGo b' l cur = selectGo b l cur ++ t := by
  induction l with
  | nil => intro cur; exact ⟨[], rfl⟩
  | cons memory rest ih =>
    intro cur
    rw [selectGo, selectGo]
    by_cases hfit : cur + estimateTokens memory.content ≤ b
    · rw [if_pos hfit, if_pos (le_trans hfit hb)]
      obtain ⟨t, ht⟩ := ih (cur + estimateTokens memory.content)
      exact ⟨t, by rw [ht, List.cons_append]⟩
    · rw [if_neg hfit]
      exact ⟨selectGo b' (memory :: rest) cur, by rw [List.nil_append, selectGo]⟩

/-- C8: the memory selection never exceeds the token budget (cost of an entry
is `ceil(len(content)/4)`), and it is monotone in the budget: every entry
selected under budget `B` is also selected under budget `2·B`. -/
theorem C8_memory_budget (memories : List MemoryEntry) (recentMessages : List String)
    (B : Nat) (now : Nat) :
    sumTokens (getRelevantMemories memories recentMessages B now).1 ≤ B ∧
    ∀ e ∈ (getRelevantMemories memories recentMessages B now).1,
      e ∈ (getRelevantMemories memories recentMessages (2 * B) now).1 := by
  have hkey : ∀ budget : Nat, (getRelevantMemories memories recentMessages budget now).1 =
      selectByTokenBudget
        ((sortDesc (memoryMatches memories
          ((String.intercalate " " recentMessages).toLower))).map (fun m => m.entry)) budget :=
    fun budget => rfl
  constructor
  · rw [hkey]
    have := selectGo_budget B
      ((sortDesc (memoryMatches memories
        ((String.intercalate " " recentMessages).toLower))).map (fun m => m.entry))
      0 (Nat.zero_le B)
    simpa [selectByTokenBudget] using this
  · intro e he
    rw [hkey] at he ⊢
    obtain ⟨t, ht⟩ := selectGo_mono
      ((sortDesc (memoryMatches memories
        ((String.intercalate " " recentMessages).toLower))).map (fun m => m.entry))
      B (2 * B) (by omega) 0
    rw [selectByTokenBudget] at he ⊢
    rw [ht]
    exact List.mem_append.2 (Or.inl he)

/- ### Decision layer (server/src/services/decision-layer.ts) -/

/-- The scoring part of `DecisionConfig` from `types/npc`. -/
structure ScoringConfig where
  directMentionBonus : ℚ
  recentInteractionBonus : ℚ
  messageCountMultiplier : ℚ
  consecutiveBonus : ℚ
  maxTimeDecay : ℚ
  timeDecayRate : ℚ
  randomnessRange : ℚ
deriving Repr, DecidableEq

/-- `DecisionConfig` from `types/npc`. -/
structure DecisionConfig where
  responseThreshold : ℚ
  responseChance : ℚ
  cooldownMs : Nat
  triggerWords : List String
  scoring : ScoringConfig
deriving Repr, DecidableEq

/-- `DecisionResult` from `types/npc`. -/
structure DecisionResult where
  shouldRespond : Bool
  targetAvatarId : Option String
  reason : String
  priorityScore : ℚ
deriving Repr, DecidableEq

/-- The mutable fields of `DecisionLayerService`: the cooldown bookkeeping and
the decision-change log used only for logging. -/
structure DecisionState where
  lastResponseTime : List (String × Nat)
  lastDecision : List (String × DecisionResult)
deriving Repr, DecidableEq

/-- `DecisionLayerService.countConsecutiveMessages`: `min(length, 5)` for a
non-empty buffer. -/
def countConsecutiveMessages (buffer : AvatarBuffer) : Nat :=
  if buffer.messages.length = 0 then 0 else min buffer.messages.length 5

/-- `DecisionLayerService.calculatePriority` with the `Math.random()` draw in
`[0, 1)` passed explicitly.  JS `if (buffer.lastRespondedAt)` is a truthiness
test, so a 0 timestamp counts as unset. -/
def calculatePriority (sc : ScoringConfig) (buffer : AvatarBuffer) (now : Nat)
    (randDraw : ℚ) : ℚ :=
  let s1 : ℚ :=
    if buffer.messages.any (fun msg => msg.isDirectMention) then sc.directMentionBonus else 0
  let s2 : ℚ := s1 +
    (match buffer.lastRespondedAt with
     | some t =>
       if t = 0 then 0
       else if (now : ℤ) - (t : ℤ) ≤ 30000 then 60
       else if (now : ℤ) - (t : ℤ) ≤ 3600000 then sc.recentInteractionBonus
       else 0
     | none => 0)
  let s3 : ℚ := s2 + min ((buffer.messages.length : ℚ) * sc.messageCountMultiplier)
    ((buffer.messages.length : ℚ) * sc.messageCountMultiplier)
  let s4 : ℚ := s3 + min ((countConsecutiveMessages buffer : ℚ) * sc.consecutiveBonus)
    (3 * sc.consecutiveBonus)
  let ageMinutes : ℚ := ((now : ℚ) - (buffer.firstMessageAt : ℚ)) / 60000
  let s5 : ℚ := s4 - min (ageMinutes * sc.timeDecayRate) sc.maxTimeDecay
  max 0 (s5 + randDraw * sc.randomnessRange)

/-- The per-avatar scores computed by `makeDecision`'s evaluation loop, in map
order, with the per-avatar random draws supplied by `randFor`. -/
def scoresOf (sc : ScoringConfig) (buffers : Buffers) (now : Nat) (randFor : String → ℚ) :
    List (String × ℚ) :=
  buffers.map (fun p => (p.1, calculatePriority sc p.2 now (randFor p.1)))

/-- The best-candidate accumulation of `makeDecision`: strictly greater scores
win, so the earliest top-scoring avatar is kept. -/
def bestCandidate (scores : List (String × ℚ)) : Option (String × ℚ) :=
  scores.foldl
    (fun acc p =>
      match acc with
      | none => some p
      | some q => if p.2 > q.2 then some p else acc)
    none

/-- The `DecisionResult` returned when no buffer exists. -/
def emptyDecision : DecisionResult :=
  { shouldRespond := false, targetAvatarId := none, reason := "no messages buffered",
    priorityScore := 0 }

/-- The tail of `makeDecision` once the best candidate is fixed: gate on
threshold and chance, enforce the cooldown unless the conversation is active
(`totalMessages > 1`), record the response time on a respond verdict, and
store the decision for change-detection logging. -/
def decideWithBest (cfg : DecisionConfig) (ds : DecisionState) (buffers : Buffers) (now : Nat)
    (chanceDraw : ℚ) (best : String × ℚ) : DecisionResult × DecisionState :=
  let shouldRespond :=
    decide (best.2 ≥ cfg.responseThreshold) && decide (chanceDraw < cfg.responseChance)
  let lastResponse := (mapGet ds.lastResponseTime best.1).getD 0
  let timeSinceLastResponse : ℤ := (now : ℤ) - (lastResponse : ℤ)
  let isActiveConversation : Bool :=
    match mapGet buffers best.1 with
    | some buffer => decide (buffer.totalMessages > 1)
    | none => false
  if shouldRespond && decide (timeSinceLastResponse < (cfg.cooldownMs : ℤ))
      && !isActiveConversation then
    ({ shouldRespond := false, targetAvatarId := none,
       reason := "cooldown active (" ++ toString timeSinceLastResponse ++ "ms)",
       priorityScore := best.2 }, ds)
  else if !shouldRespond then
    let result : DecisionResult :=
      { shouldRespond := false, targetAvatarId := none,
        reason := if best.2 < cfg.responseThreshold then "score below threshold"
                  else "random chance rejected",
        priorityScore := best.2 }
    (result, { ds with lastDecision := mapSet ds.lastDecision best.1 result })
  else
    let result : DecisionResult :=
      { shouldRespond := true, targetAvatarId := some best.1,
        reason := "selected for response", priorityScore := best.2 }
    (result, { lastResponseTime := mapSet ds.lastResponseTime best.1 now,
               lastDecision := mapSet ds.lastDecision best.1 result })

/-- `DecisionLayerService.makeDecision`, with `Date.now()` and both
`Math.random()` draws passed explicitly. -/
def makeDecision (cfg : DecisionConfig) (ds : DecisionState) (buffers : Buffers) (now : Nat)
    (chanceDraw : ℚ) (randFor : String → ℚ) : DecisionResult × DecisionState :=
  if buffers.isEmpty then (emptyDecision, ds)
  else
    match bestCandidate (scoresOf cfg.scoring buffers now randFor) with
    | none => (emptyDecision, ds)
    | some best => decideWithBest cfg ds buffers now chanceDraw best

/-- `DecisionLayerService.detectMention`. -/
def detectMention (cfg : DecisionConfig) (content : String) : Bool :=
  cfg.triggerWords.any (fun word => strIncludes content.toLower word.toLower)

/-- `DecisionLayerService.clearHistory`. -/
def clearHistory (_ds : DecisionState) : DecisionState :=
  { lastResponseTime := [], lastDecision := [] }

theorem mapGet_mem {α : Type} (m : List (String × α)) (k : String) (v : α)
    (h : mapGet m k = some v) : (k, v) ∈ m := by
  induction m with
  | nil => simp [mapGet] at h
  | cons p t ih =>
    rw [mapGet_cons] at h
    by_cases hpk : (p.1 == k) = true
    · rw [if_pos hpk] at h
      have hk : p.1 = k := by simpa using hpk
      have hv : p.2 = v := by simpa using h
      exact List.mem_cons.2 (Or.inl (by rw [← hk, ← hv]))
    · rw [if_neg hpk] at h
      exact List.mem_cons.2 (Or.inr (ih h))

/- ### C7: cooldown eligibility -/

theorem decideWithBest_respond_eligible (cfg : DecisionConfig) (ds : DecisionState)
    (buffers : Buffers) (now : Nat) (chanceDraw : ℚ) (best : String × ℚ)
    (h : (decideWithBest cfg ds buffers now chanceDraw best).1.shouldRespond = true) :
    (decideWithBest cfg ds buffers now chanceDraw best).1.targetAvatarId = some best.1 ∧
    ((∃ b, mapGet buffers best.1 = some b ∧ 1 < b.totalMessages) ∨
      (cfg.cooldownMs : ℤ) ≤ (now : ℤ) - ((mapGet ds.lastResponseTime best.1).getD 0 : ℤ)) := by
  by_cases hth : cfg.responseThreshold ≤ best.2
  · by_cases hch : chanceDraw < cfg.responseChance
    · by_cases hcd :
          (now : ℤ) - ((mapGet ds.lastResponseTime best.1).getD 0 : ℤ) < (cfg.cooldownMs : ℤ)
      · cases hact : mapGet buffers best.1 with
        | none =>
          exfalso
          simp [decideWithBest, hth, hch, hcd, hact] at h
        | some b =>
          by_cases hcnt : 1 < b.totalMessages
          · constructor
            · simp [decideWithBest, hth, hch, hcd, hact, hcnt]
            · exact Or.inl ⟨b, rfl, hcnt⟩
          · exfalso
            simp [decideWithBest, hth, hch, hcd, hact, hcnt] at h
      · constructor
        · simp [decideWithBest, hth, hch, hcd]
        · exact Or.inr (by omega)
    · exfalso
      simp [decideWithBest, hth, hch] at h
  · exfalso
    simp [decideWithBest, hth] at h

/-- C7: `makeDecision` returns a respond verdict only for a cooldown-eligible
speaker — a buffered count above one (the active-conversation exemption,
measured by `totalMessages`, which equals the buffered count on every
`addMessage` output) or a last decision-layer response at least `cooldownMs`
ago; when the threshold and chance gates pass but both cooldown conditions
fail, the verdict is a decline whose reason announces the cooldown. -/
theorem C7_cooldown_gate (cfg : DecisionConfig) (ds : DecisionState) (buffers : Buffers)
    (now : Nat) (chanceDraw : ℚ) (randFor : String → ℚ) (t : String)
    (bcfg : BufferConfig) (bufs : Buffers) (avatarId avatarName content : String)
    (isDirectMention : Bool) (bnow msgId : Nat)
    (hctr : ∀ p ∈ buffers, p.2.totalMessages = p.2.messages.length) :
    ((makeDecision cfg ds buffers now chanceDraw randFor).1.shouldRespond = true →
      (makeDecision cfg ds buffers now chanceDraw randFor).1.targetAvatarId = some t →
      (∃ b, mapGet buffers t = some b ∧ 1 < b.messages.length) ∨
        (cfg.cooldownMs : ℤ) ≤ (now : ℤ) - ((mapGet ds.lastResponseTime t).getD 0 : ℤ)) ∧
    (∀ s : ℚ, bestCandidate (scoresOf cfg.scoring buffers now randFor) = some (t, s) →
      buffers.isEmpty = false →
      cfg.responseThreshold ≤ s → chanceDraw < cfg.responseChance →
      (now : ℤ) - ((mapGet ds.lastResponseTime t).getD 0 : ℤ) < (cfg.cooldownMs : ℤ) →
      (∀ b, mapGet buffers t = some b → ¬ 1 < b.totalMessages) →
      (makeDecision cfg ds buffers now chanceDraw randFor).1.shouldRespond = false ∧
      (makeDecision cfg ds buffers now chanceDraw randFor).1.reason =
        "cooldown active ("
          ++ toString ((now : ℤ) - ((mapGet ds.lastResponseTime t).getD 0 : ℤ)) ++ "ms)") ∧
    (∀ p ∈ addMessage bcfg bufs avatarId avatarName content isDirectMention bnow msgId,
      p.2.totalMessages = p.2.messages.length) := by
  refine ⟨?_, ?_, addMessage_counter_eq bcfg bufs avatarId avatarName content isDirectMention
    bnow msgId⟩
  · intro hresp htarget
    unfold makeDecision at hresp htarget
    by_cases hemp : buffers.isEmpty = true
    · rw [if_pos hemp] at hresp
      exact absurd hresp (by simp [emptyDecision])
    · rw [if_neg hemp] at hresp htarget
      cases hbc : bestCandidate (scoresOf cfg.scoring buffers now randFor) with
      | none =>
        rw [hbc] at hresp
        exact absurd hresp (by simp [emptyDecision])
      | some best =>
        rw [hbc] at hresp htarget
        obtain ⟨htgt, helig⟩ :=
          decideWithBest_respond_eligible cfg ds buffers now chanceDraw best hresp
        have hbt : best.1 = t := by
          rw [htgt] at htarget
          exact Option.some.inj htarget
        rw [hbt] at helig
        rcases helig with ⟨b, hmg, hcnt⟩ | hcool
        · have hmem := mapGet_mem buffers t b hmg
          have := hctr (t, b) hmem
          exact Or.inl ⟨b, hmg, by dsimp only at this; omega⟩
        · exact Or.inr hcool
  · intro s hbc hemp hth hch hcd hnact
    unfold makeDecision
    rw [hemp]
    simp only [Bool.false_eq_true, if_false, hbc]
    cases hact : mapGet buffers t with
    | none => simp [decideWithBest, hth, hch, hcd, hact]
    | some b =>
      have := hnact b hact
      simp [decideWithBest, hth, hch, hcd, hact, this]

/-- Decision config for the C7 witness: threshold 50, certain chance, 1 s
cooldown, default scoring. -/
def c7Cfg : DecisionConfig :=
  { responseThreshold := 50, responseChance := 1, cooldownMs := 1000,
    triggerWords := ["maid"],
    scoring := { directMentionBonus := 100, recentInteractionBonus := 30,
                 messageCountMultiplier := 5, consecutiveBonus := 10, maxTimeDecay := 20,
                 timeDecayRate := 2, randomnessRange := 10 } }

/-- Buffer snapshot for the C7 witness: a single mention from speaker `s`. -/
def c7Bufs : Buffers :=
  [("s", { avatarId := "s", avatarName := "S",
           messages := [{ id := 1, avatarId := "s", avatarName := "S", content := "hey maid",
                          receivedAt := 1000, isDirectMention := true }],
           firstMessageAt := 1000, lastMessageAt := 1000, totalMessages := 1,
           lastRespondedAt := none })]

/-- Witness for C7: with no prior response the cooldown clause holds via the
elapsed-time disjunct. -/
theorem C7_cooldown_gate_witness :
    (∀ p ∈ c7Bufs, p.2.totalMessages = p.2.messages.length) ∧
    (makeDecision c7Cfg ⟨[], []⟩ c7Bufs 2000 0 (fun _ => 0)).1.shouldRespond = true ∧
    ((∃ b, mapGet c7Bufs "s" = some b ∧ 1 < b.messages.length) ∨
      (c7Cfg.cooldownMs : ℤ) ≤
        (2000 : ℤ) - ((mapGet (⟨[], []⟩ : DecisionState).lastResponseTime "s").getD 0 : ℤ)) := by
  refine ⟨by decide, by with_unfolding_all decide, ?_⟩
  exact (C7_cooldown_gate c7Cfg ⟨[], []⟩ c7Bufs 2000 0 (fun _ => 0) "s"
    ⟨10, 50, 5000, 60000⟩ [] "s" "S" "x" false 0 0 (by decide)).1
    (by with_unfolding_all decide) (by with_unfolding_all decide)

/- ### Conversation service (server/src/services/conversation.ts) -/

/-- Message roles of the prompt wire format. -/
inductive Role
  | system
  | user
  | assistant
deriving Repr, DecidableEq

/-- A conversation turn. -/
structure Message where
  role : Role
  content : String
deriving Repr, DecidableEq

/-- The configuration slice consumed by `ConversationService` and the chat
route: history trimming, context budgeting, and the memory flags. -/
structure ConvConfig where
  maxHistoryMessages : Nat
  budgetEnabled : Bool
  maxContextTokens : Nat
  systemPromptMaxPercent : Nat
  memoryEnabled : Bool
  memoryTokenBudget : Nat
deriving Repr, DecidableEq

/-- The mutable state of `ConversationService`: the stored history and the
persona system prompt (the inactivity timer is real-time machinery and is not
modelled). -/
structure ConvState where
  history : List Message
  systemPrompt : String
deriving Repr, DecidableEq

/-- JS `array.slice(-n)`: the last `n` elements — except that `slice(-0)` is
`slice(0)`, the whole array. -/
def jsSliceNeg {α : Type} (l : List α) (n : Nat) : List α :=
  if n = 0 then l else l.drop (l.length - n)

/-- The reverse-order accumulation loop of `calculateMessagesFitInBudget`,
counting newest-first messages whose `estimateTokens + 5` costs fit. -/
def fitGo (budget : Int) : List Message → Nat → Nat
  | [], _ => 0
  | m :: rest, tokenCount =>
    if (tokenCount + (estimateTokens m.content + 5) : Int) ≤ budget then
      1 + fitGo budget rest (tokenCount + (estimateTokens m.content + 5))
    else 0

/-- `calculateMessagesFitInBudget` from `utils/token-estimator.ts`. -/
def calculateMessagesFitInBudget (messages : List Message) (budget : Int) : Nat :=
  if messages.isEmpty ∨ budget ≤ 0 then 0 else fitGo budget messages.reverse 0

/-- `ConversationService.addUserMessage` (the inactivity-timer reset has no
bearing on the stored history). -/
def addUserMessage (st : ConvState) (content : String) : ConvState :=
  { st with history := st.history ++ [{ role := Role.user, content := content }] }

/-- `ConversationService.trimHistory`: keep the first turn plus the JS
`slice(-maxHistoryMessages)` tail when over the limit. -/
def trimHistory (cfg : ConvConfig) (st : ConvState) : ConvState :=
  if st.history.length ≤ cfg.maxHistoryMessages + 1 then st
  else
    match st.history with
    | [] => st
    | systemMessage :: _ =>
      { st with history := systemMessage :: jsSliceNeg st.history cfg.maxHistoryMessages }

/-- `ConversationService.addAssistantMessage`: append, then trim. -/
def addAssistantMessage (cfg : ConvConfig) (st : ConvState) (content : String) : ConvState :=
  trimHistory cfg { st with history := st.history ++ [{ role := Role.assistant, content := content }] }

/-- `ConversationService.removeLastMessage`. -/
def removeLastMessage (st : ConvState) : ConvState :=
  if st.history.length > 1 then { st with history := st.history.dropLast } else st

/-- `ConversationService.getHistory` returns the stored history — in the
source it returns the internal array itself, which matters for the chat
route's splice (see `respondPathStored`). -/
def getHistory (st : ConvState) : List Message :=
  st.history

/-- `ConversationService.getHistoryWithBudget`.  The stored history always
starts with the persona system turn, so the empty case never fires. -/
def getHistoryWithBudget (cfg : ConvConfig) (st : ConvState) : List Message :=
  if !cfg.budgetEnabled then getHistory st
  else
    match st.history with
    | [] => []
    | systemMsg :: conversationMsgs =>
      let systemTokens := estimateTokens systemMsg.content
      let systemBudget := cfg.maxContextTokens * cfg.systemPromptMaxPercent / 100
      let historyBudget : Int := (cfg.maxContextTokens : Int) - (min systemTokens systemBudget : Nat)
      systemMsg :: jsSliceNeg conversationMsgs (calculateMessagesFitInBudget conversationMsgs historyBudget)

/-- `ConversationService.getHistoryWithMemories` at time `now`: assembles the
prompt `[system, …memory turns, …chat]` and returns it together with the
updated memory store (access statistics). -/
def getHistoryWithMemories (cfg : ConvConfig) (memories : List MemoryEntry) (st : ConvState)
    (now : Nat) : List Message × List MemoryEntry :=
  match st.history with
  | [] => ([], memories)
  | systemMsg :: conversationMsgs =>
    let recentMessages := (jsSliceNeg conversationMsgs 5).map (fun m => m.content)
    let res := getRelevantMemories memories recentMessages cfg.memoryTokenBudget now
    let memoryMessages := res.1.map (fun m =>
      ({ role := Role.system, content := "[Memory] " ++ m.content } : Message))
    let chatHistory :=
      if cfg.budgetEnabled then
        let historyBudget : Int :=
          max 0 ((cfg.maxContextTokens : Int) -
            ((estimateTokens systemMsg.content + sumTokens res.1 : Nat) : Int))
        jsSliceNeg conversationMsgs (calculateMessagesFitInBudget conversationMsgs historyBudget)
      else conversationMsgs
    (systemMsg :: (memoryMessages ++ chatHistory), res.2)

/-- `ConversationService.saveAndReset`: the stored history becomes the lone
persona system turn (log writing is fire-and-forget I/O). -/
def saveAndReset (st : ConvState) : ConvState :=
  { st with history := [{ role := Role.system, content := st.systemPrompt }] }

/- ### C9: the address-hint system turn -/

/-- The one-shot `contextMessage` spliced in by the chat route's NPC respond
path. -/
def addressHint (speaker : String) : Message :=
  { role := Role.system,
    content := "You are responding to " ++ speaker ++ ". Address them directly by name." }

/-- The stored-history effect of the chat route's NPC respond path (steps
5–9 of `createChatRouter`): append the user turn, build the prompt, splice
the address hint at index 1, run the LLM, append the assistant turn.  When
memory or context budgeting is enabled the prompt is a fresh array and the
splice is invisible to the stored history; when both are disabled,
`getHistory` hands out the internal array itself, so `splice(1, 0, hint)`
inserts the hint into the stored history before the assistant append. -/
def respondPathStored (cfg : ConvConfig) (st : ConvState)
    (speaker userContent asstContent : String) : ConvState :=
  let st1 := addUserMessage st userContent
  if cfg.memoryEnabled then addAssistantMessage cfg st1 asstContent
  else if cfg.budgetEnabled then addAssistantMessage cfg st1 asstContent
  else
    let spliced :=
      { st1 with history := st1.history.take 1 ++ [addressHint speaker] ++ st1.history.drop 1 }
    addAssistantMessage cfg spliced asstContent

theorem jsSliceNeg_subset {α : Type} (l : List α) (n : Nat) (x : α)
    (h : x ∈ jsSliceNeg l n) : x ∈ l := by
  unfold jsSliceNeg at h
  by_cases hn : n = 0
  · rw [if_pos hn] at h; exact h
  · rw [if_neg hn] at h
    exact List.mem_of_mem_drop h

theorem trimHistory_subset (cfg : ConvConfig) (st : ConvState) (m : Message)
    (h : m ∈ (trimHistory cfg st).history) : m ∈ st.history := by
  unfold trimHistory at h
  by_cases hlen : st.history.length ≤ cfg.maxHistoryMessages + 1
  · rw [if_pos hlen] at h; exact h
  · rw [if_neg hlen] at h
    split at h
    · exact h
    · next sys rest heq =>
        have h' : m ∈ sys :: jsSliceNeg st.history cfg.maxHistoryMessages := h
        rcases List.mem_cons.1 h' with hc | hc
        · rw [heq, hc]; exact List.mem_cons_self _ _
        · exact jsSliceNeg_subset st.history cfg.maxHistoryMessages m hc

/-- C9 (amended): with memory injection or context budgeting enabled, the
respond path's stored history is exactly the intended user/assistant appends
(the spliced address hint lives only in the fresh prompt array), and every
system-role turn of the stored history already existed before the request.
With both flags disabled, the splice lands in the stored history — see the
counterexample. -/
theorem C9_hint_transient (cfg : ConvConfig) (st : ConvState)
    (speaker userContent asstContent : String)
    (hflag : cfg.memoryEnabled = true ∨ cfg.budgetEnabled = true) :
    respondPathStored cfg st speaker userContent asstContent =
      addAssistantMessage cfg (addUserMessage st userContent) asstContent ∧
    ∀ m ∈ (respondPathStored cfg st speaker userContent asstContent).history,
      m.role = Role.system → m ∈ st.history := by
  have heq : respondPathStored cfg st speaker userContent asstContent =
      addAssistantMessage cfg (addUserMessage st userContent) asstContent := by
    unfold respondPathStored
    rcases hflag with hm | hb
    · rw [hm]; rfl
    · by_cases hm : cfg.memoryEnabled = true
      · rw [hm]; rfl
      · have : cfg.memoryEnabled = false := by
          cases hcm : cfg.memoryEnabled
          · rfl
          · exact absurd hcm hm
        rw [this, hb]
        rfl
  refine ⟨heq, ?_⟩
  intro m hm hrole
  rw [heq] at hm
  have hm2 := trimHistory_subset cfg _ m hm
  simp only [addUserMessage, List.append_assoc, List.mem_append] at hm2
  rcases hm2 with hm2 | hm2
  · exact hm2
  · exfalso
    simp only [List.mem_append, List.mem_singleton] at hm2
    rcases hm2 with hm2 | hm2 <;> rw [hm2] at hrole <;> simp at hrole

/-- Initial conversation state used by the C9 witness and counterexample. -/
def c9St : ConvState :=
  { history := [{ role := Role.system, content := "persona" }], systemPrompt := "persona" }

/-- Witness for C9: with memory enabled the stored history gains exactly the
user and assistant turns. -/
theorem C9_hint_transient_witness :
    ((⟨50, false, 8000, 80, true, 500⟩ : ConvConfig).memoryEnabled = true ∨
      (⟨50, false, 8000, 80, true, 500⟩ : ConvConfig).budgetEnabled = true) ∧
    respondPathStored ⟨50, false, 8000, 80, true, 500⟩ c9St "Alice" "[Alice]: hi" "hello" =
      addAssistantMessage ⟨50, false, 8000, 80, true, 500⟩
        (addUserMessage c9St "[Alice]: hi") "hello" := by
  refine ⟨Or.inl rfl, ?_⟩
  exact (C9_hint_transient ⟨50, false, 8000, 80, true, 500⟩ c9St "Alice" "[Alice]: hi" "hello"
    (Or.inl rfl)).1

/-- Counterexample to C9 as stated: with memory and budgeting both disabled,
the route's splice mutates the stored history — after the request the stored
history contains the address-hint turn. -/
theorem C9_counterexample :
    addressHint "Alice" ∉ c9St.history ∧
    addressHint "Alice" ∈
      (respondPathStored ⟨50, false, 8000, 80, false, 500⟩ c9St "Alice" "[Alice]: hi"
        "hello").history := by
  constructor <;> decide

/- ### NPC state machine (src/unnamed/part_008, state-machine.ts) -/

/-- `NPCState` from `types/npc`. -/
inductive NPCState
  | IDLE
  | LISTENING
  | THINKING
  | SPEAKING
deriving Repr, DecidableEq

/-- `StateTransition` from `types/npc` (`from`/`to` are Lean keywords, hence
`fromState`/`toState`). -/
structure StateTransition where
  fromState : NPCState
  toState : NPCState
  reason : String
  timestamp : Nat
deriving Repr, DecidableEq

/-- The timeout part of `StateMachineConfig` from `types/npc`. -/
structure StateMachineConfig where
  tickIntervalMs : Nat
  listeningMs : Nat
  thinkingMs : Nat
  speakingCooldownMs : Nat
deriving Repr, DecidableEq

/-- The mutable fields of `NPCStateMachineService`, together with the state of
its collaborators (message buffer and decision layer) that it drives. -/
structure Machine where
  state : NPCState
  stateEnteredAt : Nat
  activeTarget : Option String
  lastResponseAt : Nat
  transitionHistory : List StateTransition
  buffers : Buffers
  decision : DecisionState
  pendingDecisions : List (String × DecisionResult)
deriving Repr, DecidableEq

/-- The machine as constructed: IDLE with everything empty. -/
def initMachine (now : Nat) : Machine :=
  { state := NPCState.IDLE, stateEnteredAt := now, activeTarget := none, lastResponseAt := 0,
    transitionHistory := [], buffers := [], decision := ⟨[], []⟩, pendingDecisions := [] }

/-- `transitionTo`: record the transition (keeping the last 100) and move to
the new state, a no-op when the state is unchanged. -/
def transitionTo (m : Machine) (newState : NPCState) (reason : String) (now : Nat) : Machine :=
  if newState = m.state then m
  else
    let th := m.transitionHistory ++
      [{ fromState := m.state, toState := newState, reason := reason, timestamp := now }]
    { m with
        transitionHistory := if th.length > 100 then th.tail else th,
        state := newState, stateEnteredAt := now }

/-- `onMessageReceived`: detect the mention, buffer the message, and move
IDLE → LISTENING (the fast-track mention path only emits an event). -/
def onMessageReceived (bcfg : BufferConfig) (dcfg : DecisionConfig) (m : Machine)
    (avatarId avatarName content : String) (now msgId : Nat) : Machine :=
  if m.state = NPCState.IDLE then
    transitionTo
      { m with
          buffers :=
            addMessage bcfg m.buffers avatarId avatarName content (detectMention dcfg content)
              now msgId }
      NPCState.LISTENING "message received" now
  else
    { m with
        buffers :=
          addMessage bcfg m.buffers avatarId avatarName content (detectMention dcfg content)
            now msgId }

/-- The synchronous head of `waitForDecision`: consume a pending decision for
this avatar if one is parked; otherwise the caller registers as a listener
and suspends (the suspension itself is outside the machine state). -/
def consumePending (m : Machine) (avatarId : String) : Option DecisionResult × Machine :=
  match mapGet m.pendingDecisions avatarId with
  | some d => (some d, { m with pendingDecisions := mapDelete m.pendingDecisions avatarId })
  | none => (none, m)

/-- `onLLMResponseReady`: outside THINKING it is a warning no-op; in THINKING
it marks the active target responded and moves to SPEAKING — without
clearing the active target. -/
def onLLMResponseReady (m : Machine) (now : Nat) : Machine :=
  if m.state ≠ NPCState.THINKING then m
  else
    match m.activeTarget with
    | some t =>
      transitionTo { m with buffers := updateLastResponded m.buffers t now, lastResponseAt := now }
        NPCState.SPEAKING "LLM response ready" now
    | none => transitionTo m NPCState.SPEAKING "LLM response ready" now

/-- `onLLMError`: in THINKING, clear the active target's buffer and the
target, then recover to IDLE; otherwise a no-op. -/
def onLLMError (m : Machine) (now : Nat) : Machine :=
  if m.state = NPCState.THINKING then
    match m.activeTarget with
    | some t =>
      transitionTo { m with buffers := clearBuffer m.buffers t, activeTarget := none }
        NPCState.IDLE "LLM error recovery" now
    | none => transitionTo m NPCState.IDLE "LLM error recovery" now
  else m

/-- `resetState`: clear all buffers and the decision-layer bookkeeping, drop
the active target, and transition to IDLE.  The pending-decisions map is not
touched. -/
def resetState (m : Machine) (now : Nat) : Machine :=
  transitionTo
    { m with buffers := clearAll m.buffers, decision := clearHistory m.decision,
             activeTarget := none }
    NPCState.IDLE "manual reset" now

/-- `handleIdleTick`. -/
def handleIdleTick (m : Machine) (now : Nat) : Machine :=
  if getTotalBufferSize m.buffers > 0 then
    transitionTo m NPCState.LISTENING "messages buffered" now
  else m

/-- `handleListeningTick`: on timeout sweep and restart; otherwise decide,
and on a respond verdict either park it (when no `decision-made` listener at
all is registered) or set the target and enter THINKING. -/
def handleListeningTick (bcfg : BufferConfig) (dcfg : DecisionConfig)
    (smCfg : StateMachineConfig) (m : Machine) (elapsed now : Nat)
    (listeners : List String) (chanceDraw : ℚ) (randFor : String → ℚ) : Machine :=
  if elapsed > smCfg.listeningMs then
    transitionTo { m with buffers := cleanExpiredMessages bcfg m.buffers now }
      NPCState.IDLE "listening timeout - restart cycle" now
  else
    match makeDecision dcfg m.decision m.buffers now chanceDraw randFor with
    | (d, ds') =>
      match d.targetAvatarId, d.shouldRespond with
      | some target, true =>
        if listeners.length > 0 then
          transitionTo { m with decision := ds', activeTarget := some target }
            NPCState.THINKING ("selected " ++ target) now
        else
          { m with decision := ds', pendingDecisions := mapSet m.pendingDecisions target d }
      | _, _ => { m with decision := ds' }

/-- `handleThinkingTick`: recover to IDLE on LLM timeout. -/
def handleThinkingTick (smCfg : StateMachineConfig) (m : Machine) (elapsed now : Nat) : Machine :=
  if elapsed > smCfg.thinkingMs then
    match m.activeTarget with
    | some t =>
      transitionTo { m with buffers := clearBuffer m.buffers t, activeTarget := none }
        NPCState.IDLE "LLM timeout" now
    | none => transitionTo m NPCState.IDLE "LLM timeout" now
  else m

/-- `handleSpeakingTick`: after the cooldown go to LISTENING or IDLE. -/
def handleSpeakingTick (smCfg : StateMachineConfig) (m : Machine) (elapsed now : Nat) : Machine :=
  if elapsed > smCfg.speakingCooldownMs then
    if getTotalBufferSize m.buffers > 0 then
      transitionTo m NPCState.LISTENING "cooldown complete, messages waiting" now
    else transitionTo m NPCState.IDLE "cooldown complete, no messages" now
  else m

/-- The tick loop body, with `Date.now()`, the set of registered
`decision-made` listeners and the random draws passed explicitly. -/
def tick (bcfg : BufferConfig) (dcfg : DecisionConfig) (smCfg : StateMachineConfig)
    (m : Machine) (now : Nat) (listeners : List String) (chanceDraw : ℚ)
    (randFor : String → ℚ) : Machine :=
  match m.state with
  | NPCState.IDLE => handleIdleTick m now
  | NPCState.LISTENING =>
    handleListeningTick bcfg dcfg smCfg m (now - m.stateEnteredAt) now listeners chanceDraw
      randFor
  | NPCState.THINKING => handleThinkingTick smCfg m (now - m.stateEnteredAt) now
  | NPCState.SPEAKING => handleSpeakingTick smCfg m (now - m.stateEnteredAt) now

/-- The machine states reachable from construction through the service's
public operations, over arbitrary inputs, times and random draws. -/
inductive Reachable (bcfg : BufferConfig) (dcfg : DecisionConfig)
    (smCfg : StateMachineConfig) : Machine → Prop
  | init (now : Nat) : Reachable bcfg dcfg smCfg (initMachine now)
  | msg {m : Machine} (avatarId avatarName content : String) (now msgId : Nat) :
      Reachable bcfg dcfg smCfg m →
      Reachable bcfg dcfg smCfg (onMessageReceived bcfg dcfg m avatarId avatarName content now msgId)
  | tickStep {m : Machine} (now : Nat) (listeners : List String) (chanceDraw : ℚ)
      (randFor : String → ℚ) :
      Reachable bcfg dcfg smCfg m →
      Reachable bcfg dcfg smCfg (tick bcfg dcfg smCfg m now listeners chanceDraw randFor)
  | llmReady {m : Machine} (now : Nat) :
      Reachable bcfg dcfg smCfg m → Reachable bcfg dcfg smCfg (onLLMResponseReady m now)
  | llmError {m : Machine} (now : Nat) :
      Reachable bcfg dcfg smCfg m → Reachable bcfg dcfg smCfg (onLLMError m now)
  | reset {m : Machine} (now : Nat) :
      Reachable bcfg dcfg smCfg m → Reachable bcfg dcfg smCfg (resetState m now)
  | consume {m : Machine} (avatarId : String) :
      Reachable bcfg dcfg smCfg m → Reachable bcfg dcfg smCfg (consumePending m avatarId).2

theorem transitionTo_state (m : Machine) (s : NPCState) (r : String) (now : Nat) :
    (transitionTo m s r now).state = s := by
  unfold transitionTo
  by_cases h : s = m.state
  · rw [if_pos h, h]
  · rw [if_neg h]

theorem transitionTo_activeTarget (m : Machine) (s : NPCState) (r : String) (now : Nat) :
    (transitionTo m s r now).activeTarget = m.activeTarget := by
  unfold transitionTo
  by_cases h : s = m.state
  · rw [if_pos h]
  · rw [if_neg h]

theorem transitionTo_buffers (m : Machine) (s : NPCState) (r : String) (now : Nat) :
    (transitionTo m s r now).buffers = m.buffers := by
  unfold transitionTo
  by_cases h : s = m.state
  · rw [if_pos h]
  · rw [if_neg h]

theorem transitionTo_pending (m : Machine) (s : NPCState) (r : String) (now : Nat) :
    (transitionTo m s r now).pendingDecisions = m.pendingDecisions := by
  unfold transitionTo
  by_cases h : s = m.state
  · rw [if_pos h]
  · rw [if_neg h]

theorem transitionTo_decision (m : Machine) (s : NPCState) (r : String) (now : Nat) :
    (transitionTo m s r now).decision = m.decision := by
  unfold transitionTo
  by_cases h : s = m.state
  · rw [if_pos h]
  · rw [if_neg h]

/- ### C1: the active target across states -/

/-- The spec's invariant restricted to the direction the code maintains:
THINKING implies a non-null active target. -/
def TargetInv (m : Machine) : Prop :=
  m.state = NPCState.THINKING → m.activeTarget ≠ none

theorem TargetInv_onMessageReceived (bcfg : BufferConfig) (dcfg : DecisionConfig) (m : Machine)
    (avatarId avatarName content : String) (now msgId : Nat) (h : TargetInv m) :
    TargetInv (onMessageReceived bcfg dcfg m avatarId avatarName content now msgId) := by
  unfold TargetInv onMessageReceived at *
  by_cases hidle : m.state = NPCState.IDLE
  · rw [if_pos hidle]
    intro hs
    rw [transitionTo_state] at hs
    simp at hs
  · rw [if_neg hidle]
    intro hs
    exact h hs

theorem TargetInv_handleListeningTick (bcfg : BufferConfig) (dcfg : DecisionConfig)
    (smCfg : StateMachineConfig) (m : Machine) (elapsed now : Nat) (listeners : List String)
    (c : ℚ) (r : String → ℚ) (h : TargetInv m) :
    TargetInv (handleListeningTick bcfg dcfg smCfg m elapsed now listeners c r) := by
  unfold TargetInv handleListeningTick at *
  split
  · intro hs
    rw [transitionTo_state] at hs
    simp at hs
  · split
    split
    · split
      · intro hs
        rw [transitionTo_activeTarget]
        simp
      · intro hs
        exact h hs
    · intro hs
      exact h hs

theorem TargetInv_tick (bcfg : BufferConfig) (dcfg : DecisionConfig) (smCfg : StateMachineConfig)
    (m : Machine) (now : Nat) (listeners : List String) (c : ℚ) (r : String → ℚ)
    (h : TargetInv m) : TargetInv (tick bcfg dcfg smCfg m now listeners c r) := by
  unfold TargetInv tick at *
  split
  · -- IDLE
    unfold handleIdleTick
    split
    · intro hs
      rw [transitionTo_state] at hs
      simp at hs
    · intro hs
      exact h hs
  · -- LISTENING
    exact TargetInv_handleListeningTick bcfg dcfg smCfg m _ now listeners c r h
  · -- THINKING
    unfold handleThinkingTick
    split
    · split
      · intro hs
        rw [transitionTo_state] at hs
        simp at hs
      · intro hs
        rw [transitionTo_state] at hs
        simp at hs
    · intro hs
      exact h hs
  · -- SPEAKING
    unfold handleSpeakingTick
    split
    · split
      · intro hs
        rw [transitionTo_state] at hs
        simp at hs
      · intro hs
        rw [transitionTo_state] at hs
        simp at hs
    · intro hs
      exact h hs

theorem TargetInv_onLLMResponseReady (m : Machine) (now : Nat) (h : TargetInv m) :
    TargetInv (onLLMResponseReady m now) := by
  unfold TargetInv onLLMResponseReady at *
  by_cases hthink : m.state ≠ NPCState.THINKING
  · rw [if_pos hthink]
    exact h
  · rw [if_neg hthink]
    cases hat : m.activeTarget with
    | some t =>
      intro hs
      rw [transitionTo_state] at hs
      simp at hs
    | none =>
      intro hs
      rw [transitionTo_state] at hs
      simp at hs

theorem TargetInv_onLLMError (m : Machine) (now : Nat) (h : TargetInv m) :
    TargetInv (onLLMError m now) := by
  unfold TargetInv onLLMError at *
  by_cases hthink : m.state = NPCState.THINKING
  · rw [if_pos hthink]
    cases hat : m.activeTarget with
    | some t =>
      intro hs
      rw [transitionTo_state] at hs
      simp at hs
    | none =>
      intro hs
      rw [transitionTo_state] at hs
      simp at hs
  · rw [if_neg hthink]
    exact h

theorem TargetInv_resetState (m : Machine) (now : Nat) : TargetInv (resetState m now) := by
  unfold TargetInv resetState
  intro hs
  rw [transitionTo_state] at hs
  simp at hs

theorem TargetInv_consumePending (m : Machine) (avatarId : String) (h : TargetInv m) :
    TargetInv (consumePending m avatarId).2 := by
  unfold TargetInv consumePending at *
  cases hmg : mapGet m.pendingDecisions avatarId with
  | some d =>
    intro hs
    exact h hs
  | none =>
    intro hs
    exact h hs

theorem Reachable_TargetInv (bcfg : BufferConfig) (dcfg : DecisionConfig)
    (smCfg : StateMachineConfig) (m : Machine) (hr : Reachable bcfg dcfg smCfg m) :
    TargetInv m := by
  induction hr with
  | init now =>
    intro hs
    simp [initMachine] at hs
  | msg avatarId avatarName content now msgId _ ih =>
    exact TargetInv_onMessageReceived bcfg dcfg _ avatarId avatarName content now msgId ih
  | tickStep now listeners chanceDraw randFor _ ih =>
    exact TargetInv_tick bcfg dcfg smCfg _ now listeners chanceDraw randFor ih
  | llmReady now _ ih => exact TargetInv_onLLMResponseReady _ now ih
  | llmError now _ ih => exact TargetInv_onLLMError _ now ih
  | reset now _ _ => exact TargetInv_resetState _ now
  | consume avatarId _ ih => exact TargetInv_consumePending _ avatarId ih

theorem onLLMResponseReady_activeTarget (m : Machine) (now : Nat) :
    (onLLMResponseReady m now).activeTarget = m.activeTarget := by
  unfold onLLMResponseReady
  by_cases hthink : m.state ≠ NPCState.THINKING
  · rw [if_pos hthink]
  · rw [if_neg hthink]
    cases hat : m.activeTarget with
    | some t => rw [transitionTo_activeTarget]
    | none =>
      rw [transitionTo_activeTarget]
      exact hat

/-- C1 (amended): on every reachable machine the active target is non-null
whenever the state is THINKING, but the converse fails: the THINKING→SPEAKING
transition taken by `onLLMResponseReady` leaves the active target unchanged
(still non-null), not null — see the counterexample for a reachable SPEAKING
state with a non-null target. -/
theorem C1_active_target (bcfg : BufferConfig) (dcfg : DecisionConfig)
    (smCfg : StateMachineConfig) (m : Machine) (now : Nat)
    (hr : Reachable bcfg dcfg smCfg m) :
    (m.state = NPCState.THINKING → m.activeTarget ≠ none) ∧
    (onLLMResponseReady m now).activeTarget = m.activeTarget :=
  ⟨Reachable_TargetInv bcfg dcfg smCfg m hr, onLLMResponseReady_activeTarget m now⟩

/-- Buffer configuration used by the concrete state machine scenarios. -/
def stdBufCfg : BufferConfig := ⟨10, 50, 5000, 60000⟩

/-- Decision configuration used by the concrete state machine scenarios:
threshold 50, certain chance, 1 s cooldown, default scoring. -/
def stdDecCfg : DecisionConfig :=
  { responseThreshold := 50, responseChance := 1, cooldownMs := 1000, triggerWords := ["maid"],
    scoring := { directMentionBonus := 100, recentInteractionBonus := 30,
                 messageCountMultiplier := 5, consecutiveBonus := 10, maxTimeDecay := 20,
                 timeDecayRate := 2, randomnessRange := 10 } }

/-- State machine timeouts used by the concrete scenarios. -/
def stdSmCfg : StateMachineConfig := ⟨1000, 15000, 30000, 5000⟩

/-- Machine after ingesting a direct mention from speaker `s` at time 1000:
LISTENING with one buffered message. -/
def traceAfterIngest : Machine :=
  onMessageReceived stdBufCfg stdDecCfg (initMachine 0) "s" "S" "hey maid" 1000 1

/-- Machine after a tick at time 2000 with a live waiter: THINKING with
active target `s`. -/
def traceThinking : Machine :=
  tick stdBufCfg stdDecCfg stdSmCfg traceAfterIngest 2000 ["s"] 0 (fun _ => 0)

/-- Machine after the LLM reply at time 3000: SPEAKING. -/
def traceSpeaking : Machine := onLLMResponseReady traceThinking 3000

set_option maxRecDepth 2000 in
/-- Witness for C1: the reachable THINKING machine has a non-null target,
and `onLLMResponseReady` does not change the target field. -/
theorem C1_active_target_witness :
    Reachable stdBufCfg stdDecCfg stdSmCfg traceThinking ∧
    traceThinking.state = NPCState.THINKING ∧
    traceThinking.activeTarget ≠ none ∧
    (onLLMResponseReady traceThinking 3000).activeTarget = traceThinking.activeTarget := by
  have hr : Reachable stdBufCfg stdDecCfg stdSmCfg traceThinking :=
    Reachable.tickStep 2000 ["s"] 0 (fun _ => 0)
      (Reachable.msg "s" "S" "hey maid" 1000 1 (Reachable.init 0))
  have h := C1_active_target stdBufCfg stdDecCfg stdSmCfg traceThinking 3000 hr
  exact ⟨hr, by with_unfolding_all decide, h.1 (by with_unfolding_all decide), h.2⟩

set_option maxRecDepth 2000 in
/-- Counterexample to C1 as stated: a reachable SPEAKING machine whose active
target is still `s` — the iff fails and `onLLMResponseReady` did not null the
target. -/
theorem C1_counterexample :
    Reachable stdBufCfg stdDecCfg stdSmCfg traceSpeaking ∧
    traceSpeaking.state = NPCState.SPEAKING ∧
    traceSpeaking.activeTarget = some "s" := by
  refine ⟨Reachable.llmReady 3000 (Reachable.tickStep 2000 ["s"] 0 (fun _ => 0)
    (Reachable.msg "s" "S" "hey maid" 1000 1 (Reachable.init 0))), ?_, ?_⟩ <;>
    with_unfolding_all decide

/- ### C2: the pending-decision parking condition -/

/-- C2 (amended): on a LISTENING tick (no timeout) whose decision is a
respond verdict for `target`, the verdict is parked and the machine stays
put exactly when NO `decision-made` listener at all is registered; with any
listener registered — even one waiting for a different speaker — the machine
transitions to THINKING instead of parking. -/
theorem C2_pending_parking (bcfg : BufferConfig) (dcfg : DecisionConfig)
    (smCfg : StateMachineConfig) (m : Machine) (now : Nat) (listeners : List String)
    (c : ℚ) (r : String → ℚ) (target : String) (d : DecisionResult) (ds' : DecisionState)
    (hstate : m.state = NPCState.LISTENING)
    (htime : ¬ (now - m.stateEnteredAt > smCfg.listeningMs))
    (hmd : makeDecision dcfg m.decision m.buffers now c r = (d, ds'))
    (hresp : d.shouldRespond = true)
    (htgt : d.targetAvatarId = some target) :
    (listeners.length = 0 →
      (tick bcfg dcfg smCfg m now listeners c r).state = m.state ∧
      (tick bcfg dcfg smCfg m now listeners c r).pendingDecisions =
        mapSet m.pendingDecisions target d ∧
      (tick bcfg dcfg smCfg m now listeners c r).activeTarget = m.activeTarget) ∧
    (listeners.length > 0 →
      (tick bcfg dcfg smCfg m now listeners c r).state = NPCState.THINKING ∧
      (tick bcfg dcfg smCfg m now listeners c r).activeTarget = some target ∧
      (tick bcfg dcfg smCfg m now listeners c r).pendingDecisions = m.pendingDecisions) := by
  have hkey : tick bcfg dcfg smCfg m now listeners c r =
      (if listeners.length > 0 then
        transitionTo { m with decision := ds', activeTarget := some target }
          NPCState.THINKING ("selected " ++ target) now
      else
        { m with decision := ds', pendingDecisions := mapSet m.pendingDecisions target d }) := by
    simp only [tick, handleListeningTick, hstate, hmd, htgt, hresp]
    rw [if_neg htime]
  constructor
  · intro h0
    rw [hkey, if_neg (by omega)]
    exact ⟨rfl, rfl, rfl⟩
  · intro hpos
    rw [hkey, if_pos hpos]
    refine ⟨transitionTo_state _ _ _ _, ?_, transitionTo_pending _ _ _ _⟩
    rw [transitionTo_activeTarget]

set_option maxRecDepth 2000 in
/-- Witness for C2: with no listener at all the verdict for `s` is parked and
the machine stays in LISTENING. -/
theorem C2_pending_parking_witness :
    traceAfterIngest.state = NPCState.LISTENING ∧
    (tick stdBufCfg stdDecCfg stdSmCfg traceAfterIngest 2000 [] 0 (fun _ => 0)).state =
      traceAfterIngest.state ∧
    (tick stdBufCfg stdDecCfg stdSmCfg traceAfterIngest 2000 [] 0 (fun _ => 0)).pendingDecisions =
      mapSet traceAfterIngest.pendingDecisions "s"
        (makeDecision stdDecCfg traceAfterIngest.decision traceAfterIngest.buffers 2000 0
          (fun _ => 0)).1 ∧
    (tick stdBufCfg stdDecCfg stdSmCfg traceAfterIngest 2000 [] 0 (fun _ => 0)).activeTarget =
      traceAfterIngest.activeTarget := by
  have h := (C2_pending_parking stdBufCfg stdDecCfg stdSmCfg traceAfterIngest 2000 [] 0
    (fun _ => 0) "s"
    (makeDecision stdDecCfg traceAfterIngest.decision traceAfterIngest.buffers 2000 0
      (fun _ => 0)).1
    (makeDecision stdDecCfg traceAfterIngest.decision traceAfterIngest.buffers 2000 0
      (fun _ => 0)).2
    (by with_unfolding_all decide) (by with_unfolding_all decide) rfl
    (by with_unfolding_all decide) (by with_unfolding_all decide)).1 rfl
  exact ⟨by with_unfolding_all decide, h.1, h.2.1, h.2.2⟩

set_option maxRecDepth 2000 in
/-- Counterexample to C2 as stated: a waiter registered for a different
speaker `t` suffices to make the machine transition to THINKING for `s`
instead of parking the verdict. -/
theorem C2_counterexample :
    Reachable stdBufCfg stdDecCfg stdSmCfg traceAfterIngest ∧
    traceAfterIngest.state = NPCState.LISTENING ∧
    ("t" ≠ "s") ∧
    (tick stdBufCfg stdDecCfg stdSmCfg traceAfterIngest 2000 ["t"] 0 (fun _ => 0)).state =
      NPCState.THINKING ∧
    (tick stdBufCfg stdDecCfg stdSmCfg traceAfterIngest 2000 ["t"] 0 (fun _ => 0)).activeTarget =
      some "s" ∧
    (tick stdBufCfg stdDecCfg stdSmCfg traceAfterIngest 2000 ["t"] 0
      (fun _ => 0)).pendingDecisions = [] := by
  refine ⟨Reachable.msg "s" "S" "hey maid" 1000 1 (Reachable.init 0), ?_, ?_, ?_, ?_, ?_⟩ <;>
    with_unfolding_all decide

/- ### C3: markResponded on the two delivery paths -/

theorem onLLMResponseReady_not_thinking (m : Machine) (now : Nat)
    (h : ¬ m.state = NPCState.THINKING) : onLLMResponseReady m now = m := by
  unfold onLLMResponseReady
  rw [if_pos h]

/-- C3 (amended): `onLLMResponseReady` invokes the buffer-side markResponded
(`updateLastResponded`) exactly once, for the active target, when and only
when the machine is in THINKING — the live-broadcast cycle.  Outside THINKING
(in particular after a pending-consumed verdict, when the machine never
entered THINKING) the call is a no-op and markResponded is never invoked. -/
theorem C3_markResponded (m : Machine) (now : Nat) :
    (∀ s, m.state = NPCState.THINKING → m.activeTarget = some s →
      (onLLMResponseReady m now).buffers = updateLastResponded m.buffers s now ∧
      (onLLMResponseReady m now).state = NPCState.SPEAKING) ∧
    (m.state ≠ NPCState.THINKING → onLLMResponseReady m now = m) := by
  constructor
  · intro s hthink hat
    unfold onLLMResponseReady
    rw [if_neg (by simp [hthink]), hat]
    exact ⟨transitionTo_buffers _ _ _ _, transitionTo_state _ _ _ _⟩
  · intro hthink
    unfold onLLMResponseReady
    rw [if_pos hthink]

set_option maxRecDepth 2000 in
/-- Witness for C3: the live path marks the target responded and enters
SPEAKING. -/
theorem C3_markResponded_witness :
    traceThinking.state = NPCState.THINKING ∧
    traceThinking.activeTarget = some "s" ∧
    (onLLMResponseReady traceThinking 3000).buffers =
      updateLastResponded traceThinking.buffers "s" 3000 ∧
    (onLLMResponseReady traceThinking 3000).state = NPCState.SPEAKING := by
  have h := (C3_markResponded traceThinking 3000).1 "s" (by with_unfolding_all decide)
    (by with_unfolding_all decide)
  exact ⟨by with_unfolding_all decide, by with_unfolding_all decide, h.1, h.2⟩

/-- Machine after a tick at time 2000 with no listener: the respond verdict
for `s` is parked and the machine stays in LISTENING. -/
def tracePark : Machine :=
  tick stdBufCfg stdDecCfg stdSmCfg traceAfterIngest 2000 [] 0 (fun _ => 0)

/-- Machine after the parked verdict for `s` is consumed by the next request. -/
def traceConsumed : Machine := (consumePending tracePark "s").2

set_option maxRecDepth 2000 in
/-- Counterexample to C3 as stated: a cycle that consumes a parked verdict
emits a reply while the machine is still LISTENING, so `onLLMResponseReady`
is a no-op and markResponded is never invoked — the speaker's
last-responded-at stays null. -/
theorem C3_counterexample :
    Reachable stdBufCfg stdDecCfg stdSmCfg traceConsumed ∧
    (consumePending tracePark "s").1.isSome = true ∧
    ((consumePending tracePark "s").1.map (fun d => d.shouldRespond)) = some true ∧
    onLLMResponseReady traceConsumed 3000 = traceConsumed ∧
    ((mapGet (onLLMResponseReady traceConsumed 3000).buffers "s").map
      (fun b => b.lastRespondedAt)) = some none := by
  have hstate : traceConsumed.state = NPCState.LISTENING := by with_unfolding_all decide
  have hnoop : onLLMResponseReady traceConsumed 3000 = traceConsumed :=
    onLLMResponseReady_not_thinking _ _ (by rw [hstate]; simp)
  refine ⟨Reachable.consume "s" (Reachable.tickStep 2000 [] 0 (fun _ => 0)
    (Reachable.msg "s" "S" "hey maid" 1000 1 (Reachable.init 0))),
    by with_unfolding_all decide, by with_unfolding_all decide, hnoop, ?_⟩
  rw [hnoop]
  with_unfolding_all decide

/- ### C10: reset leaves the pending map untouched -/

/-- C10: `resetState` clears all buffers, the decision-layer bookkeeping and
the active target and transitions to IDLE, but leaves the pending-decisions
map untouched: a verdict parked for `s` before the reset is still consumed by
a later `waitForDecision(s, …)`. -/
theorem C10_reset_preserves_pending (m : Machine) (now : Nat) (s : String)
    (d : DecisionResult) :
    (resetState m now).pendingDecisions = m.pendingDecisions ∧
    (resetState m now).buffers = [] ∧
    (resetState m now).decision = ⟨[], []⟩ ∧
    (resetState m now).activeTarget = none ∧
    (resetState m now).state = NPCState.IDLE ∧
    (mapGet m.pendingDecisions s = some d →
      (consumePending (resetState m now) s).1 = some d) := by
  have hp : (resetState m now).pendingDecisions = m.pendingDecisions := by
    unfold resetState
    rw [transitionTo_pending]
  refine ⟨hp, ?_, ?_, ?_, transitionTo_state _ _ _ _, ?_⟩
  · unfold resetState
    rw [transitionTo_buffers]
    rfl
  · unfold resetState
    rw [transitionTo_decision]
    rfl
  · unfold resetState
    rw [transitionTo_activeTarget]
  · intro hmg
    unfold consumePending
    rw [hp, hmg]

/-- A parked respond verdict used by the C10 witness. -/
def c10Verdict : DecisionResult :=
  { shouldRespond := true, targetAvatarId := some "s", reason := "selected for response",
    priorityScore := 60 }

/-- A machine in LISTENING holding a parked verdict for `s`, used by the C10
witness. -/
def c10Machine : Machine :=
  { state := NPCState.LISTENING, stateEnteredAt := 1000, activeTarget := none,
    lastResponseAt := 0, transitionHistory := [], buffers := [], decision := ⟨[], []⟩,
    pendingDecisions := [("s", c10Verdict)] }

set_option maxRecDepth 2000 in
/-- Witness for C10: after a reset the parked verdict for `s` survives and is
consumed by the next `waitForDecision(s, …)`. -/
theorem C10_reset_preserves_pending_witness :
    mapGet c10Machine.pendingDecisions "s" = some c10Verdict ∧
    (resetState c10Machine 5000).pendingDecisions = c10Machine.pendingDecisions ∧
    (resetState c10Machine 5000).state = NPCState.IDLE ∧
    (consumePending (resetState c10Machine 5000) "s").1 = some c10Verdict := by
  have h := C10_reset_preserves_pending c10Machine 5000 "s" c10Verdict
  exact ⟨by with_unfolding_all decide, h.1, h.2.2.2.2.1,
    h.2.2.2.2.2 (by with_unfolding_all decide)⟩

end SLBot
